import Mathlib

/-! # CPCEMU DSK codec (`dsk.go`): shallow embedding and verified properties

Machine integers are `Nat` with explicit wrap-around (`% 256` for `uint8`,
`% 65536` for `uint16`).  Byte streams and byte arrays are `List Nat`.  A Go
run-time panic (index out of range) is the `none` of an `Option` result; a Go
`error` result is an `Option GoError` (`none` is Go's `nil`).

The calls into Go's standard library (`encoding/binary`, `io`) are modelled
by the small definitions of the first section, which follow the library's
dispatch on the dynamic type of the `data` argument.
-/

namespace Dsk

/-! ## Errors -/

/-- Error values the package can return: its three sentinel errors, the two
end-of-stream errors of `io.ReadFull`, the `invalid type` error of
`encoding/binary`, and an error of `os.Open` / `os.Create`. -/
inductive GoError where
  | ErrorUnsupportedDskFormat
  | ErrorUnsupportedMultiHeadDsk
  | ErrorBadSectorNumber
  | EOF
  | ErrUnexpectedEOF
  | invalidType
  | osError
  deriving DecidableEq, Repr

/-! ## Model of `io.ReadFull` and `encoding/binary` -/

/-- Shapes of the Go types that this package hands to `encoding/binary`. -/
inductive GoType where
  | uint8 : GoType
  | uint16 : GoType
  | array (len : Nat) (elem : GoType) : GoType
  | slice (elem : GoType) : GoType
  | struct (fields : List GoType) : GoType
  | ptr (elem : GoType) : GoType

mutual
/-- The function `sizeof(t reflect.Type)` of `encoding/binary`: the encoded
size of a fixed-size type, `none` (Go: `-1`) for a type that is not
fixed-size, such as a slice nested in a struct. -/
def sizeof : GoType → Option Nat
  | .uint8 => some 1
  | .uint16 => some 2
  | .array len elem =>
    match sizeof elem with
    | some s => some (s * len)
    | none => none
  | .struct fields => sizeofFields fields
  | .slice _ => none
  | .ptr _ => none
/-- The field loop of `sizeof` on a struct type. -/
def sizeofFields : List GoType → Option Nat
  | [] => some 0
  | f :: fs =>
    match sizeof f with
    | none => none
    | some s =>
      match sizeofFields fs with
      | none => none
      | some sum => some (s + sum)
end

/-- The function `io.ReadFull(r, buf)` with `len(buf) = n` on a reader whose
unread bytes are `r`: the bytes read or the error, and the unread rest. -/
def ioReadFull (r : List Nat) (n : Nat) : Except GoError (List Nat) × List Nat :=
  if n ≤ r.length then (.ok (r.take n), r.drop n)
  else if r.length = 0 then (.error .EOF, [])
  else (.error .ErrUnexpectedEOF, [])

/-- The function `intDataSize` of `encoding/binary` on a value that is neither
a pointer nor a slice: `1` for a `uint8`, `2` for a `uint16`, `0` (no fast
path) for every other type. -/
def intDataSize : GoType → Nat
  | .uint8 => 1
  | .uint16 => 2
  | _ => 0

/-- The call `binary.Read(r, order, x)` where `x` is passed BY VALUE (a
`uint8`, a `uint16` or an array, not a pointer to one).  The callee receives
a copy, so no variable of the caller is ever assigned.  For a `uint8` or
`uint16` the fast path first consumes `intDataSize` bytes (failing with the
`io.ReadFull` error on a short stream); then, the type switch having no case
for a non-pointer, the call either reports success (`lenient = true`, the
behaviour of older Go releases, whose fast path returned nil after the read)
or falls through to the reflection path (`lenient = false`, current
releases).  The reflection path rejects every value whose kind is neither
pointer nor slice with `binary.Read: invalid type`, without reading.
Result: the unread rest of the stream and the error. -/
def binaryReadByValue (lenient : Bool) (ty : GoType) (r : List Nat) :
    List Nat × Option GoError :=
  if intDataSize ty = 0 then (r, some .invalidType)
  else
    match ioReadFull r (intDataSize ty) with
    | (.error e, r1) => (r1, some e)
    | (.ok _, r1) => if lenient then (r1, none) else (r1, some .invalidType)

/-- The call `binary.Read(r, order, buf)` with `buf` a `[]byte` of length
`n`: a slice shares its backing array with the caller, so the bytes read do
land in the caller's buffer.  Result: the buffer contents after the call (all
zero when the read failed, as `make` left them), the unread rest, the error. -/
def binaryReadBytes (n : Nat) (r : List Nat) : List Nat × List Nat × Option GoError :=
  match ioReadFull r n with
  | (.ok bs, r1) => (bs, r1, none)
  | (.error e, r1) => (List.replicate n 0, r1, some e)

/-- The call `binary.Write(w, order, v)` for a value `v` of type `ty` that is
not a basic integer or slice of integers: the library computes
`dataSize(v) = sizeof(ty)` and returns `binary.Write: invalid type` without
writing when the type is not fixed-size; otherwise it writes the encoding
`enc` that `encoder.value` produces. -/
def binaryWrite (ty : GoType) (enc : List Nat) : Except GoError (List Nat) :=
  match sizeof ty with
  | none => .error .invalidType
  | some _ => .ok enc

/-- Little-endian encoding of a `uint16`. -/
def putUint16 (v : Nat) : List Nat := [v % 256, v / 256 % 256]

/-- Little-endian decoding of a `uint16` from two bytes. -/
def getUint16 (lo hi : Nat) : Nat := lo + 256 * hi

/-- The built-in `copy(dst, src)` on byte arrays: overwrites the first
`min(len(dst), len(src))` bytes of `dst` and returns the new `dst`. -/
def copyBytes (dst src : List Nat) : List Nat :=
  src.take dst.length ++ dst.drop src.length

/-! ## Data model -/

/-- The struct `CPCEMUEnt`: the 256-byte disk header. -/
structure CPCEMUEnt where
  /-- Go type `[0x30]byte`. -/
  Debut : List Nat
  /-- Go type `uint8`. -/
  NbTracks : Nat
  /-- Go type `uint8`. -/
  NbHeads : Nat
  /-- Go type `uint16`. -/
  DataSize : Nat
  /-- Go type `[0xCC]byte`. -/
  Unused : List Nat
  deriving DecidableEq, Repr

/-- The struct `CPCEMUSect`; `Data` is a `[]byte` (nil and empty are both `[]`). -/
structure CPCEMUSect where
  C : Nat
  H : Nat
  R : Nat
  N : Nat
  Un1 : Nat
  SizeByte : Nat
  Data : List Nat
  deriving DecidableEq, Repr

/-- The struct `CPCEMUTrack`; `Sect` is the array `[29]CPCEMUSect`. -/
structure CPCEMUTrack where
  /-- Go type `[0x10]byte`. -/
  ID : List Nat
  Track : Nat
  Head : Nat
  /-- Go type `[2]byte`. -/
  Unused : List Nat
  SectSize : Nat
  NbSect : Nat
  Gap3 : Nat
  OctRemp : Nat
  /-- Go type `[29]CPCEMUSect`. -/
  Sect : List CPCEMUSect
  deriving DecidableEq, Repr

/-- The struct `DSK`. -/
structure DSK where
  Entry : CPCEMUEnt
  Tracks : List CPCEMUTrack
  deriving DecidableEq, Repr

/-- The zero value `CPCEMUEnt{}`. -/
def CPCEMUEnt.zero : CPCEMUEnt :=
  { Debut := List.replicate 0x30 0, NbTracks := 0, NbHeads := 0, DataSize := 0,
    Unused := List.replicate 0xCC 0 }

/-- The zero value `CPCEMUSect{}`. -/
def CPCEMUSect.zero : CPCEMUSect :=
  { C := 0, H := 0, R := 0, N := 0, Un1 := 0, SizeByte := 0, Data := [] }

/-- The zero value `CPCEMUTrack{}`. -/
def CPCEMUTrack.zero : CPCEMUTrack :=
  { ID := List.replicate 0x10 0, Track := 0, Head := 0, Unused := List.replicate 2 0,
    SectSize := 0, NbSect := 0, Gap3 := 0, OctRemp := 0,
    Sect := List.replicate 29 CPCEMUSect.zero }

/-- The zero value `DSK{}`. -/
def DSK.zero : DSK := { Entry := CPCEMUEnt.zero, Tracks := [] }

/-- The Go type of `CPCEMUEnt`. -/
def CPCEMUEnt.goType : GoType :=
  .struct [.array 0x30 .uint8, .uint8, .uint8, .uint16, .array 0xCC .uint8]

/-- The Go type of `CPCEMUSect`: its last field is a slice. -/
def CPCEMUSect.goType : GoType :=
  .struct [.uint8, .uint8, .uint8, .uint8, .uint16, .uint16, .slice .uint8]

/-- The Go type of `CPCEMUTrack`. -/
def CPCEMUTrack.goType : GoType :=
  .struct [.array 0x10 .uint8, .uint8, .uint8, .array 2 .uint8, .uint8, .uint8, .uint8,
    .uint8, .array 29 CPCEMUSect.goType]

/-- Range invariants that the Go types impose on a header value. -/
def CPCEMUEnt.WF (e : CPCEMUEnt) : Prop :=
  e.Debut.length = 0x30 ∧ (∀ b ∈ e.Debut, b < 256) ∧ e.NbTracks < 256 ∧ e.NbHeads < 256 ∧
  e.DataSize < 65536 ∧ e.Unused.length = 0xCC ∧ (∀ b ∈ e.Unused, b < 256)

/-- Range invariants that the Go types impose on a sector value. -/
def CPCEMUSect.WF (s : CPCEMUSect) : Prop :=
  s.C < 256 ∧ s.H < 256 ∧ s.R < 256 ∧ s.N < 256 ∧ s.Un1 < 65536 ∧ s.SizeByte < 65536 ∧
  (∀ b ∈ s.Data, b < 256)

/-- Range invariants that the Go types impose on a track value; in particular
the sector array has exactly 29 slots. -/
def CPCEMUTrack.WF (t : CPCEMUTrack) : Prop :=
  t.ID.length = 0x10 ∧ (∀ b ∈ t.ID, b < 256) ∧ t.Track < 256 ∧ t.Head < 256 ∧
  t.Unused.length = 2 ∧ (∀ b ∈ t.Unused, b < 256) ∧ t.SectSize < 256 ∧ t.NbSect < 256 ∧
  t.Gap3 < 256 ∧ t.OctRemp < 256 ∧ t.Sect.length = 29 ∧ (∀ s ∈ t.Sect, s.WF)

/-- Range invariants that the Go types impose on an image. -/
def DSK.WF (d : DSK) : Prop :=
  d.Entry.WF ∧ ∀ t ∈ d.Tracks, t.WF

/-! ## Header, sector and track records -/

/-- What `encoder.value` emits for a `CPCEMUEnt`: the fields in declaration
order, little-endian. -/
def CPCEMUEnt.encode (e : CPCEMUEnt) : List Nat :=
  e.Debut ++ [e.NbTracks, e.NbHeads] ++ putUint16 e.DataSize ++ e.Unused

/-- What `decoder.value` stores into a `CPCEMUEnt` from its 256 bytes. -/
def CPCEMUEnt.decode (bs : List Nat) : CPCEMUEnt :=
  { Debut := bs.take 0x30, NbTracks := bs.getD 0x30 0, NbHeads := bs.getD 0x31 0,
    DataSize := getUint16 (bs.getD 0x32 0) (bs.getD 0x33 0),
    Unused := (bs.drop 0x34).take 0xCC }

/-- The call `binary.Read(f, binary.LittleEndian, cpcEntry)` of `NewDsk`, with
`cpcEntry` a `*CPCEMUEnt`: a pointer to a fixed-size struct, so the library
reads `sizeof` bytes with `io.ReadFull` and decodes them. -/
def binaryReadEnt (r : List Nat) : Except GoError CPCEMUEnt × List Nat :=
  match sizeof CPCEMUEnt.goType with
  | none => (.error .invalidType, r)
  | some size =>
    match ioReadFull r size with
    | (.error e, r1) => (.error e, r1)
    | (.ok bs, r1) => (.ok (CPCEMUEnt.decode bs), r1)

/-- What `encoder.value` emits for a `CPCEMUSect`. -/
def CPCEMUSect.encode (s : CPCEMUSect) : List Nat :=
  [s.C, s.H, s.R, s.N] ++ putUint16 s.Un1 ++ putUint16 s.SizeByte ++ s.Data

/-- What `encoder.value` emits for a `CPCEMUTrack`: the 24 header bytes and
then every element of the 29-slot array. -/
def CPCEMUTrack.encode (t : CPCEMUTrack) : List Nat :=
  t.ID ++ [t.Track, t.Head] ++ t.Unused ++ [t.SectSize, t.NbSect, t.Gap3, t.OctRemp] ++
    (t.Sect.map CPCEMUSect.encode).flatten

/-- The method `(c *CPCEMUSect) Read(r)`.  The five header fields are passed to
`binary.Read` by value (and `c.R` is not read at all), so only `c.Data` is
assigned.  Result: the sector after the call, the unread rest, the error. -/
def CPCEMUSect.Read (lenient : Bool) (c : CPCEMUSect) (r : List Nat) :
    CPCEMUSect × List Nat × Option GoError :=
  match binaryReadByValue lenient .uint8 r with
  | (r1, some err) => (c, r1, some err)
  | (r1, none) =>
  match binaryReadByValue lenient .uint8 r1 with
  | (r2, some err) => (c, r2, some err)
  | (r2, none) =>
  match binaryReadByValue lenient .uint8 r2 with
  | (r3, some err) => (c, r3, some err)
  | (r3, none) =>
  match binaryReadByValue lenient .uint16 r3 with
  | (r4, some err) => (c, r4, some err)
  | (r4, none) =>
  match binaryReadByValue lenient .uint16 r4 with
  | (r5, some err) => (c, r5, some err)
  | (r5, none) =>
  match binaryReadBytes c.SizeByte r5 with
  | (data, r6, some err) => ({ c with Data := data }, r6, some err)
  | (data, r6, none) => ({ c with Data := data }, r6, none)

/-- The sector loop of `(c *CPCEMUTrack) Read`: `for i < c.NbSect`, read a
fresh sector and store it into `c.Sect[i]`; `fuel` is the number of
iterations left.  `none` is an index panic on the 29-slot array. -/
def CPCEMUTrack.readSectors (lenient : Bool) :
    Nat → Nat → CPCEMUTrack → List Nat → Option (CPCEMUTrack × List Nat × Option GoError)
  | 0, _, c, r => some (c, r, none)
  | fuel + 1, i, c, r =>
    match CPCEMUSect.Read lenient CPCEMUSect.zero r with
    | (_, r1, some err) => some (c, r1, some err)
    | (sect, r1, none) =>
      if i < c.Sect.length then
        CPCEMUTrack.readSectors lenient fuel (i + 1) { c with Sect := c.Sect.set i sect } r1
      else none

/-- The method `(c *CPCEMUTrack) Read(r)`.  Every header field is passed to
`binary.Read` by value, the first of them being the array `c.ID`. -/
def CPCEMUTrack.Read (lenient : Bool) (c : CPCEMUTrack) (r : List Nat) :
    Option (CPCEMUTrack × List Nat × Option GoError) :=
  match binaryReadByValue lenient (.array 0x10 .uint8) r with
  | (r1, some err) => some (c, r1, some err)
  | (r1, none) =>
  match binaryReadByValue lenient .uint8 r1 with
  | (r2, some err) => some (c, r2, some err)
  | (r2, none) =>
  match binaryReadByValue lenient .uint8 r2 with
  | (r3, some err) => some (c, r3, some err)
  | (r3, none) =>
  match binaryReadByValue lenient (.array 2 .uint8) r3 with
  | (r4, some err) => some (c, r4, some err)
  | (r4, none) =>
  match binaryReadByValue lenient .uint8 r4 with
  | (r5, some err) => some (c, r5, some err)
  | (r5, none) =>
  match binaryReadByValue lenient .uint8 r5 with
  | (r6, some err) => some (c, r6, some err)
  | (r6, none) =>
  match binaryReadByValue lenient .uint8 r6 with
  | (r7, some err) => some (c, r7, some err)
  | (r7, none) =>
  match binaryReadByValue lenient .uint8 r7 with
  | (r8, some err) => some (c, r8, some err)
  | (r8, none) => CPCEMUTrack.readSectors lenient c.NbSect 0 c r8

/-! ## Loading and storing an image -/

/-- The text `MV -`. -/
def sigMV : List Nat := [0x4D, 0x56, 0x20, 0x2D]

/-- The text `EXTENDED CPC DSK`. -/
def sigExtended : List Nat :=
  [0x45, 0x58, 0x54, 0x45, 0x4E, 0x44, 0x45, 0x44, 0x20, 0x43, 0x50, 0x43, 0x20, 0x44, 0x53, 0x4B]

/-- The 34-byte text `MV - CPCEMU Disk-File\r\nDisk-Info\r\n`. -/
def sigDiskInfo : List Nat :=
  [0x4D, 0x56, 0x20, 0x2D, 0x20, 0x43, 0x50, 0x43, 0x45, 0x4D, 0x55, 0x20,
   0x44, 0x69, 0x73, 0x6B, 0x2D, 0x46, 0x69, 0x6C, 0x65, 0x0D, 0x0A,
   0x44, 0x69, 0x73, 0x6B, 0x2D, 0x49, 0x6E, 0x66, 0x6F, 0x0D, 0x0A]

/-- The 12-byte text `Track-Info\r\n`. -/
def sigTrackInfo : List Nat :=
  [0x54, 0x72, 0x61, 0x63, 0x6B, 0x2D, 0x49, 0x6E, 0x66, 0x6F, 0x0D, 0x0A]

/-- The track loop of `NewDsk`: `for i < cpcEntry.NbTracks`, read a fresh
track; on an error only log, otherwise store it into `dsk.Tracks[i]`; then
print `dsk.Tracks[i]`.  `fuel` is the number of iterations left, `f` the
unread rest of the file. -/
def NewDsk.readTracks (lenient : Bool) : Nat → Nat → DSK → List Nat → Option DSK
  | 0, _, dsk, _ => some dsk
  | fuel + 1, i, dsk, f =>
    if i < dsk.Tracks.length then
      match CPCEMUTrack.Read lenient CPCEMUTrack.zero f with
      | none => none
      | some (_, f1, some _) => NewDsk.readTracks lenient fuel (i + 1) dsk f1
      | some (track, f1, none) =>
        NewDsk.readTracks lenient fuel (i + 1) { dsk with Tracks := dsk.Tracks.set i track } f1
    else none

/-- The function `NewDsk(filePath)`; `file` is the outcome of `os.Open`: the
file's bytes, or the error.  Result: the image and the error, as Go returns
them; `none` is a panic. -/
def NewDsk (lenient : Bool) (file : Except GoError (List Nat)) : Option (DSK × Option GoError) :=
  match file with
  | .error err => some (DSK.zero, some err)
  | .ok f =>
    match binaryReadEnt f with
    | (.error err, _) => some (DSK.zero, some err)
    | (.ok cpcEntry, f1) =>
      let mv := copyBytes (List.replicate 4 0) (cpcEntry.Debut.take 4)
      let extended := copyBytes (List.replicate 16 0) (cpcEntry.Debut.take 16)
      if mv ≠ sigMV ∧ extended ≠ sigExtended then
        some (DSK.zero, some .ErrorUnsupportedDskFormat)
      else
        let dsk : DSK :=
          { Entry := cpcEntry, Tracks := List.replicate cpcEntry.NbTracks CPCEMUTrack.zero }
        match NewDsk.readTracks lenient cpcEntry.NbTracks 0 dsk f1 with
        | none => none
        | some dsk1 => some (dsk1, none)

/-- The track loop of `Write`: `for t < d.Entry.NbTracks`, write
`d.Tracks[t]` with `binary.Write` and return on the first error.  `out` is
what the file holds so far. -/
def DSK.writeTracks (d : DSK) : Nat → Nat → List Nat → Option (List Nat × Option GoError)
  | 0, _, out => some (out, none)
  | fuel + 1, t, out =>
    match d.Tracks[t]? with
    | none => none
    | some tr =>
      match binaryWrite CPCEMUTrack.goType tr.encode with
      | .error err => some (out, some err)
      | .ok bs => DSK.writeTracks d fuel (t + 1) (out ++ bs)

/-- The method `(d *DSK) Write(filePath)`; `create` is the outcome of
`os.Create` (`none`: the file was created empty).  Result: the bytes the file
holds when `Write` returns, and the error; `none` is a panic. -/
def DSK.Write (d : DSK) (create : Option GoError) : Option (List Nat × Option GoError) :=
  match create with
  | some err => some ([], some err)
  | none =>
    match binaryWrite CPCEMUEnt.goType d.Entry.encode with
    | .error err => some ([], some err)
    | .ok bs => DSK.writeTracks d d.Entry.NbTracks 0 bs

/-! ## Blank synthesis -/

/-- The fill loop of `FormatTrack`: `for i < SizeByte`, `Data[i] = 0xe5`. -/
def DSK.fillData : Nat → Nat → List Nat → List Nat
  | 0, _, data => data
  | fuel + 1, i, data => DSK.fillData fuel (i + 1) (data.set i 0xe5)

/-- The sector loop of `FormatTrack`: `for s < nbSect`, set the fields of
`t.Sect[s]`, allocate and fill its data, `ss++`.  `none` is an index panic on
the 29-slot array. -/
def DSK.formatSectors (track minSect : Nat) : Nat → Nat → Nat → CPCEMUTrack → Option CPCEMUTrack
  | 0, _, _, t => some t
  | fuel + 1, s, ss, t =>
    match t.Sect[s]? with
    | none => none
    | some old =>
      let sizeByte := 0x200
      let sect : CPCEMUSect :=
        { old with
          C := track, H := 0, R := (ss + minSect) % 256, N := 2, SizeByte := sizeByte,
          Data := DSK.fillData sizeByte 0 (List.replicate sizeByte 0) }
      DSK.formatSectors track minSect fuel (s + 1) ((ss + 1) % 256)
        { t with Sect := t.Sect.set s sect }

/-- The method `(d *DSK) FormatTrack(track, minSect, nbSect)`; `none` is an
index panic, on the sector array or on `d.Tracks[track]`. -/
def DSK.FormatTrack (d : DSK) (track minSect nbSect : Nat) : Option DSK :=
  let t : CPCEMUTrack :=
    { CPCEMUTrack.zero with
      ID := copyBytes CPCEMUTrack.zero.ID sigTrackInfo, Track := track, Head := 0,
      SectSize := 2, NbSect := nbSect, Gap3 := 0x4E, OctRemp := 0xE5 }
  match DSK.formatSectors track minSect nbSect 0 0 t with
  | none => none
  | some t1 =>
    if track < d.Tracks.length then some { d with Tracks := d.Tracks.set track t1 }
    else none

/-- The track loop of `FormatDsk`: `for i < nbTrack`, `dsk.FormatTrack(i, 0xC1, nbSect)`. -/
def FormatDsk.formatTracks (nbSect : Nat) : Nat → Nat → DSK → Option DSK
  | 0, _, dsk => some dsk
  | fuel + 1, i, dsk =>
    match dsk.FormatTrack i 0xC1 nbSect with
    | none => none
    | some dsk1 => FormatDsk.formatTracks nbSect fuel (i + 1) dsk1

/-- The function `FormatDsk(nbSect, nbTrack)`, both arguments `uint8`; `none` is a panic. -/
def FormatDsk (nbSect nbTrack : Nat) : Option DSK :=
  let entry : CPCEMUEnt :=
    { CPCEMUEnt.zero with
      Debut := copyBytes CPCEMUEnt.zero.Debut sigDiskInfo,
      DataSize := (0x21c * nbSect) % 65536, NbTracks := nbTrack, NbHeads := 1 }
  let dsk : DSK := { Entry := entry, Tracks := List.replicate nbTrack CPCEMUTrack.zero }
  FormatDsk.formatTracks nbSect nbTrack 0 dsk

/-! ## Validation and addressing -/

/-- The sector loop of `GetMinSect`: `for s < tr.NbSect`, lower `Sect` to
`tr.Sect[s].R` when that is smaller. -/
def DSK.minSectLoop (tr : CPCEMUTrack) : Nat → Nat → Nat → Option Nat
  | 0, _, sect => some sect
  | fuel + 1, s, sect =>
    match tr.Sect[s]? with
    | none => none
    | some x => DSK.minSectLoop tr fuel (s + 1) (if sect > x.R then x.R else sect)

/-- The method `(d *DSK) GetMinSect()`; `none` is an index panic. -/
def DSK.GetMinSect (d : DSK) : Option Nat :=
  match d.Tracks[0]? with
  | none => none
  | some tr => DSK.minSectLoop tr tr.NbSect 0 0xFF

/-- The diagnostics `CheckDsk` prints on standard output. -/
inductive Warning where
  | sectorCount (track nbSect : Nat)
  | strangeNumbering (track : Nat)
  | firstSector (track minSect minSectFirst : Nat)
  deriving DecidableEq, Repr

/-- The inner loop of `CheckDsk`: `for s < tr.NbSect`, update `minSect` and
`maxSect` from `tr.Sect[s].R`. -/
def DSK.spreadLoop (tr : CPCEMUTrack) : Nat → Nat → Nat → Nat → Option (Nat × Nat)
  | 0, _, minSect, maxSect => some (minSect, maxSect)
  | fuel + 1, s, minSect, maxSect =>
    match tr.Sect[s]? with
    | none => none
    | some x =>
      DSK.spreadLoop tr fuel (s + 1) (if minSect > x.R then x.R else minSect)
        (if maxSect < x.R then x.R else maxSect)

/-- The track loop of `CheckDsk`: `for track < d.Entry.NbTracks`, inspect
`d.Tracks[track]` and print warnings (`ws` collects them, in order). -/
def DSK.checkTracks (d : DSK) (minSectFirst : Nat) : Nat → Nat → List Warning → Option (List Warning)
  | 0, _, ws => some ws
  | fuel + 1, track, ws =>
    match d.Tracks[track]? with
    | none => none
    | some tr =>
      let ws1 := if tr.NbSect ≠ 9 then ws ++ [Warning.sectorCount track tr.NbSect] else ws
      match DSK.spreadLoop tr tr.NbSect 0 0xFF 0 with
      | none => none
      | some (minSect, maxSect) =>
        let ws2 :=
          if (maxSect + 256 - minSect) % 256 ≠ 8 then ws1 ++ [Warning.strangeNumbering track]
          else ws1
        let ws3 :=
          if minSect ≠ minSectFirst then ws2 ++ [Warning.firstSector track minSect minSectFirst]
          else ws2
        DSK.checkTracks d minSectFirst fuel (track + 1) ws3

/-- The method `(d *DSK) CheckDsk()`.  Result: the image after the call, the
warnings printed, and the error; `none` is a panic. -/
def DSK.CheckDsk (d : DSK) : Option (DSK × List Warning × Option GoError) :=
  if d.Entry.NbHeads = 1 then
    match d.GetMinSect with
    | none => none
    | some minSectFirst =>
      if minSectFirst ≠ 0x41 ∧ minSectFirst ≠ 0xc1 ∧ minSectFirst ≠ 0x01 then
        some (d, [], some .ErrorBadSectorNumber)
      else
        let d1 : DSK :=
          if d.Entry.NbTracks > 42 then { d with Entry := { d.Entry with NbTracks := 42 } } else d
        match DSK.checkTracks d1 minSectFirst d1.Entry.NbTracks 0 [] with
        | none => none
        | some ws => some (d1, ws, none)
  else some (d, [], some .ErrorUnsupportedMultiHeadDsk)

/-- The method `(d *DSK) GetPosData(track, sect, SectPhysique)`, a `uint16`;
`none` is an index panic. -/
def DSK.GetPosData (d : DSK) (track sect : Nat) (SectPhysique : Bool) : Option Nat :=
  match d.Tracks[track]? with
  | none => none
  | some tr =>
    match tr.Sect[sect]? with
    | none => none
    | some x =>
      let Pos := 0
      if (x.R = sect ∧ SectPhysique = true) ∨ SectPhysique = false then
        let SizeByte := x.SizeByte
        if SizeByte = 0 then some ((Pos + SizeByte) % 65536)
        else some ((Pos + (128 * 2 ^ x.N) % 65536) % 65536)
      else some Pos

/-- The signature test of `NewDsk`, on the first bytes of the file. -/
def signatureAccepted (f : List Nat) : Prop :=
  f.take 4 = sigMV ∨ f.take 16 = sigExtended

instance (f : List Nat) : Decidable (signatureAccepted f) := by
  unfold signatureAccepted; infer_instance

/-! ## A sample file -/

/-- One sector record of the sample file: the 8-byte sector header
(`C = 0`, `H = 0`, `R = r`, `N = 0`, reserved word 0, declared length 128)
followed by 128 data bytes. -/
def sampleSectorBytes (r : Nat) : List Nat :=
  [0, 0, r, 0, 0, 0, 128, 0] ++ List.replicate 128 0xE5

/-- The track record of the sample file: the 24-byte track header (signature
`Track-Info\r\n`, track 0, head 0, size code 0, 29 sectors, gap 0x4E, fill
0xE5) followed by 29 sector records with ids 1 to 29, so that every one of
the 29 slots is populated. -/
def sampleTrackBytes : List Nat :=
  sigTrackInfo ++ List.replicate 4 0 ++ [0, 0, 0, 0, 0, 29, 0x4E, 0xE5] ++
    ((List.range 29).map (fun s => sampleSectorBytes (1 + s))).flatten

/-- The header record of the sample file: signature, one track, one head,
declared track size `0x0F80`. -/
def sampleHeaderBytes : List Nat :=
  sigDiskInfo ++ List.replicate 14 0 ++ [1, 1, 0x80, 0x0F] ++ List.replicate 204 0

/-- A standard-layout file: a 256-byte header and one track record of 29
sectors of 128 bytes each. -/
def sampleFile : List Nat := sampleHeaderBytes ++ sampleTrackBytes

/-! ## A truncated file and a sector stream -/

/-- A track record cut short: the 24-byte track header (signature
`Track-Info\r\n`, track 0, head 0, size code 0, 2 sectors declared, gap 0x4E,
fill 0xE5), one complete sector record (id 1, 128 data bytes), then the
8-byte header of a second sector (id 2, declared length 128) followed by only
10 of its data bytes. -/
def truncatedTrackBytes : List Nat :=
  sigTrackInfo ++ List.replicate 4 0 ++ [0, 0, 0, 0, 0, 2, 0x4E, 0xE5] ++
    sampleSectorBytes 1 ++ [0, 0, 2, 0, 0, 0, 128, 0] ++ List.replicate 10 0xE5

/-- A file with a valid one-track header whose track record is cut short in
its second sector. -/
def truncatedFile : List Nat := sampleHeaderBytes ++ truncatedTrackBytes

/-- A sector record: header `C = 1`, `H = 2`, `R = 3`, `N = 4`, reserved word
5, declared length 2, followed by the 2 data bytes `0xAA`, `0xBB`. -/
def sampleSectorStream : List Nat := [1, 2, 3, 4, 5, 0, 2, 0, 0xAA, 0xBB]

/-! ## A sample image -/

/-- A track that declares 3 sectors with ids `0x43, 0x41, 0x42`, the other 26
slots zero-valued. -/
def sampleTrack : CPCEMUTrack :=
  { CPCEMUTrack.zero with
    NbSect := 3,
    Sect := [{ CPCEMUSect.zero with R := 0x43 }, { CPCEMUSect.zero with R := 0x41 },
      { CPCEMUSect.zero with R := 0x42 }] ++ List.replicate 26 CPCEMUSect.zero }

/-- A single-head image of one track, `sampleTrack`. -/
def sampleImage : DSK :=
  { Entry := { CPCEMUEnt.zero with NbTracks := 1, NbHeads := 1 }, Tracks := [sampleTrack] }

/-- A sector with id 0, size code `n` and declared byte length `sizeByte`. -/
def posSect (n sizeByte : Nat) : CPCEMUSect :=
  { CPCEMUSect.zero with N := n, SizeByte := sizeByte, Data := List.replicate sizeByte 0 }

/-- An image of one track whose slot 0 is `posSect n sizeByte`, every other
slot zero-valued. -/
def posImage (n sizeByte : Nat) : DSK :=
  { Entry := { CPCEMUEnt.zero with NbTracks := 1, NbHeads := 1 },
    Tracks := [{ CPCEMUTrack.zero with
      NbSect := 1,
      Sect := [posSect n sizeByte] ++ List.replicate 28 CPCEMUSect.zero }] }

/-- A single-head image that declares 50 tracks and holds one zero-valued
track, so that its minimum sector id is the sentinel `0xFF`. -/
def rejectedImage : DSK :=
  { Entry := { CPCEMUEnt.zero with NbTracks := 50, NbHeads := 1 },
    Tracks := [CPCEMUTrack.zero] }

/-- The image `d` with its track count clamped as `CheckDsk` does:
`if d.Entry.NbTracks > 42 { d.Entry.NbTracks = 42 }`. -/
def DSK.clampTracks (d : DSK) : DSK :=
  if d.Entry.NbTracks > 42 then { d with Entry := { d.Entry with NbTracks := 42 } } else d

/-! ## Closed form of a formatted image -/

/-- The sector `FormatTrack(track, minSect, _)` leaves in slot `s`. -/
def formattedSect (track minSect s : Nat) : CPCEMUSect :=
  { C := track, H := 0, R := (s + minSect) % 256, N := 2, Un1 := 0, SizeByte := 0x200,
    Data := List.replicate 0x200 0xe5 }

/-- The track `FormatTrack(track, minSect, nbSect)` stores, for `nbSect ≤ 29`. -/
def formattedTrack (track minSect nbSect : Nat) : CPCEMUTrack :=
  { ID := sigTrackInfo ++ List.replicate 4 0, Track := track, Head := 0,
    Unused := List.replicate 2 0, SectSize := 2, NbSect := nbSect, Gap3 := 0x4E,
    OctRemp := 0xE5,
    Sect := (List.range 29).map
      (fun s => if s < nbSect then formattedSect track minSect s else CPCEMUSect.zero) }

/-- The image `FormatDsk(nbSect, nbTrack)` returns, for `nbSect ≤ 29`. -/
def formattedDsk (nbSect nbTrack : Nat) : DSK :=
  { Entry :=
      { Debut := sigDiskInfo ++ List.replicate 14 0, NbTracks := nbTrack, NbHeads := 1,
        DataSize := (0x21c * nbSect) % 65536, Unused := List.replicate 0xCC 0 },
    Tracks := (List.range nbTrack).map (fun i => formattedTrack i 0xC1 nbSect) }

/-! # Theorems -/

/-! ## Library model: basic facts -/

theorem sizeof_CPCEMUEnt : sizeof CPCEMUEnt.goType = some 256 := by decide

theorem sizeof_CPCEMUTrack : sizeof CPCEMUTrack.goType = none := by decide

theorem copyBytes_of_length_eq (dst src : List Nat) (h : src.length = dst.length) :
    copyBytes dst src = src := by
  unfold copyBytes
  rw [← h, List.take_length, List.drop_of_length_le (by omega), List.append_nil]

theorem binaryReadEnt_of_le (f : List Nat) (h : 256 ≤ f.length) :
    binaryReadEnt f = (.ok (CPCEMUEnt.decode (f.take 256)), f.drop 256) := by
  simp [binaryReadEnt, sizeof_CPCEMUEnt, ioReadFull, h]

theorem binaryReadEnt_of_lt (f : List Nat) (h : f.length < 256) :
    ∃ e r, binaryReadEnt f = (.error e, r) := by
  have h1 : ¬ 256 ≤ f.length := by omega
  by_cases h0 : f.length = 0
  · exact ⟨.EOF, [], by simp [binaryReadEnt, sizeof_CPCEMUEnt, ioReadFull, h1, h0]⟩
  · exact ⟨.ErrUnexpectedEOF, [], by simp [binaryReadEnt, sizeof_CPCEMUEnt, ioReadFull, h1, h0]⟩

/-- The first `binary.Read` of `CPCEMUTrack.Read` receives the array `c.ID` by
value and is rejected: the method returns that error, the track and the
stream untouched. -/
theorem CPCEMUTrack.Read_eq (lenient : Bool) (c : CPCEMUTrack) (r : List Nat) :
    CPCEMUTrack.Read lenient c r = some (c, r, some .invalidType) := by
  simp [CPCEMUTrack.Read, binaryReadByValue, intDataSize]

theorem NewDsk.readTracks_eq (lenient : Bool) (fuel : Nat) :
    ∀ (i : Nat) (dsk : DSK) (f : List Nat), i + fuel ≤ dsk.Tracks.length →
      NewDsk.readTracks lenient fuel i dsk f = some dsk := by
  induction fuel with
  | zero => intro i dsk f _; rfl
  | succ n ih =>
    intro i dsk f h
    have hi : i < dsk.Tracks.length := by omega
    simp only [NewDsk.readTracks, hi, if_true, CPCEMUTrack.Read_eq]
    exact ih (i + 1) dsk f (by omega)

theorem decode_Debut_take (f : List Nat) (k : Nat) (hk : k ≤ 48) :
    (CPCEMUEnt.decode (f.take 256)).Debut.take k = f.take k := by
  simp only [CPCEMUEnt.decode, List.take_take]
  congr 1
  omega

theorem NewDsk_mv (f : List Nat) (h : 256 ≤ f.length) :
    copyBytes (List.replicate 4 0) ((CPCEMUEnt.decode (f.take 256)).Debut.take 4) = f.take 4 := by
  rw [decode_Debut_take f 4 (by omega)]
  apply copyBytes_of_length_eq
  simp; omega

theorem NewDsk_extended (f : List Nat) (h : 256 ≤ f.length) :
    copyBytes (List.replicate 16 0) ((CPCEMUEnt.decode (f.take 256)).Debut.take 16)
      = f.take 16 := by
  rw [decode_Debut_take f 16 (by omega)]
  apply copyBytes_of_length_eq
  simp; omega

/-- The image `NewDsk` assembles from a file with a full, accepted header:
the decoded header and `NbTracks` zero-valued tracks. -/
theorem NewDsk_of_accepted (lenient : Bool) (f : List Nat) (h : 256 ≤ f.length)
    (hs : signatureAccepted f) :
    NewDsk lenient (.ok f) =
      some ({ Entry := CPCEMUEnt.decode (f.take 256),
              Tracks := List.replicate (CPCEMUEnt.decode (f.take 256)).NbTracks
                CPCEMUTrack.zero }, none) := by
  have hc : ¬ (f.take 4 ≠ sigMV ∧ f.take 16 ≠ sigExtended) := by
    unfold signatureAccepted at hs
    tauto
  simp only [NewDsk, binaryReadEnt_of_le f h, NewDsk_mv f h, NewDsk_extended f h, hc, if_false]
  rw [NewDsk.readTracks_eq]
  simp

theorem NewDsk_of_rejected (lenient : Bool) (f : List Nat) (h : 256 ≤ f.length)
    (hs : ¬ signatureAccepted f) :
    NewDsk lenient (.ok f) = some (DSK.zero, some .ErrorUnsupportedDskFormat) := by
  have hc : f.take 4 ≠ sigMV ∧ f.take 16 ≠ sigExtended := by
    unfold signatureAccepted at hs
    tauto
  simp only [NewDsk, binaryReadEnt_of_le f h, NewDsk_mv f h, NewDsk_extended f h]
  simp [hc]

/-! ## Loading: signature check and lenient track policy -/

/-- C2: on a file that holds at least the 256 header bytes, `NewDsk` returns
`ErrorUnsupportedDskFormat` exactly when the first 4 bytes are not `MV -` and
the first 16 bytes are not `EXTENDED CPC DSK`. -/
theorem NewDsk_unsupported_iff (lenient : Bool) (f : List Nat) (h : 256 ≤ f.length) :
    (NewDsk lenient (.ok f)).map Prod.snd = some (some GoError.ErrorUnsupportedDskFormat) ↔
      (f.take 4 ≠ sigMV ∧ f.take 16 ≠ sigExtended) := by
  by_cases hs : signatureAccepted f
  · rw [NewDsk_of_accepted lenient f h hs]
    unfold signatureAccepted at hs
    simp only [Option.map_some']
    constructor
    · intro h1; cases h1
    · intro h1; tauto
  · rw [NewDsk_of_rejected lenient f h hs]
    unfold signatureAccepted at hs
    simp only [Option.map_some', true_iff]
    tauto

theorem NewDsk_unsupported_iff_witness :
    256 ≤ (List.replicate 256 0).length ∧
    ((NewDsk false (.ok (List.replicate 256 0))).map Prod.snd
        = some (some GoError.ErrorUnsupportedDskFormat) ↔
      ((List.replicate 256 0).take 4 ≠ sigMV ∧ (List.replicate 256 0).take 16 ≠ sigExtended)) :=
  ⟨(List.length_replicate 256 0).ge,
   NewDsk_unsupported_iff false (List.replicate 256 0) (List.length_replicate 256 0).ge⟩

/-- C3: on a file whose 256-byte header can be read and passes the signature
check, `NewDsk` returns a nil error and an image whose `Entry` is the decoded
header and whose track sequence has length `Entry.NbTracks`, whatever follows
the header; so it never returns an error on such a file. -/
theorem NewDsk_returns_image (lenient : Bool) (f : List Nat) (h : 256 ≤ f.length)
    (hs : f.take 4 = sigMV ∨ f.take 16 = sigExtended) :
    (∃ d, NewDsk lenient (.ok f) = some (d, none) ∧
      d.Entry = CPCEMUEnt.decode (f.take 256) ∧ d.Tracks.length = d.Entry.NbTracks) ∧
    ∀ d e, NewDsk lenient (.ok f) ≠ some (d, some e) := by
  rw [NewDsk_of_accepted lenient f h hs]
  refine ⟨⟨_, rfl, rfl, by simp⟩, ?_⟩
  intro d e hc
  cases hc

theorem NewDsk_returns_image_witness :
    256 ≤ (sigMV ++ List.replicate 44 0 ++ [3, 1] ++ List.replicate 206 0).length ∧
    ((sigMV ++ List.replicate 44 0 ++ [3, 1] ++ List.replicate 206 0).take 4 = sigMV ∨
      (sigMV ++ List.replicate 44 0 ++ [3, 1] ++ List.replicate 206 0).take 16 = sigExtended) ∧
    ((∃ d, NewDsk true (.ok (sigMV ++ List.replicate 44 0 ++ [3, 1] ++ List.replicate 206 0))
          = some (d, none) ∧
        d.Entry = CPCEMUEnt.decode
          ((sigMV ++ List.replicate 44 0 ++ [3, 1] ++ List.replicate 206 0).take 256) ∧
        d.Tracks.length = d.Entry.NbTracks) ∧
      ∀ d e, NewDsk true (.ok (sigMV ++ List.replicate 44 0 ++ [3, 1] ++ List.replicate 206 0))
        ≠ some (d, some e)) :=
  ⟨by simp only [List.length_append, List.length_replicate, sigMV, List.length_cons,
      List.length_nil, Nat.le_refl],
   Or.inl (by rfl),
   NewDsk_returns_image true _
     (by simp only [List.length_append, List.length_replicate, sigMV, List.length_cons,
      List.length_nil, Nat.le_refl])
     (Or.inl (by rfl))⟩

/-! ## Validation -/

/-- C4: on an image whose head count is not 1, `CheckDsk` returns
`ErrorUnsupportedMultiHeadDsk` (and leaves the image as it is), whatever the
tracks are, an empty track sequence included. -/
theorem CheckDsk_multi_head (d : DSK) (h : d.Entry.NbHeads ≠ 1) :
    d.CheckDsk = some (d, [], some GoError.ErrorUnsupportedMultiHeadDsk) := by
  simp [DSK.CheckDsk, h]

theorem CheckDsk_multi_head_witness :
    ({ Entry := { CPCEMUEnt.zero with NbHeads := 2 }, Tracks := [] } : DSK).Entry.NbHeads ≠ 1 ∧
    ({ Entry := { CPCEMUEnt.zero with NbHeads := 2 }, Tracks := [] } : DSK).CheckDsk
      = some ({ Entry := { CPCEMUEnt.zero with NbHeads := 2 }, Tracks := [] }, [],
          some GoError.ErrorUnsupportedMultiHeadDsk) :=
  ⟨by decide, CheckDsk_multi_head _ (by decide)⟩

/-! ## Storing -/

theorem CPCEMUEnt.encode_decode_length (f : List Nat) (h : 256 ≤ f.length) :
    (CPCEMUEnt.decode (f.take 256)).encode.length = 256 := by
  simp only [CPCEMUEnt.encode, CPCEMUEnt.decode, putUint16, List.length_append,
    List.length_take, List.length_drop, List.length_cons, List.length_nil]
  omega

/-- No track record is ever written: `binary.Write` rejects `CPCEMUTrack`,
whose sectors hold a slice, so `Write` returns after the header. -/
theorem DSK.Write_of_track (d : DSK) (tr : CPCEMUTrack) (h0 : d.Tracks[0]? = some tr)
    (hn : 0 < d.Entry.NbTracks) :
    d.Write none = some (d.Entry.encode, some .invalidType) := by
  obtain ⟨n, hn1⟩ : ∃ n, d.Entry.NbTracks = n + 1 := ⟨d.Entry.NbTracks - 1, by omega⟩
  simp [DSK.Write, binaryWrite, sizeof_CPCEMUEnt, sizeof_CPCEMUTrack, hn1, DSK.writeTracks, h0]

theorem DSK.Write_of_no_track (d : DSK) (hn : d.Entry.NbTracks = 0) :
    d.Write none = some (d.Entry.encode, none) := by
  simp [DSK.Write, binaryWrite, sizeof_CPCEMUEnt, hn, DSK.writeTracks]

theorem sampleHeaderBytes_length : sampleHeaderBytes.length = 256 := by
  simp only [sampleHeaderBytes, sigDiskInfo, List.length_append, List.length_replicate,
    List.length_cons, List.length_nil]

theorem sampleFile_take : sampleFile.take 256 = sampleHeaderBytes := by
  unfold sampleFile
  rw [List.take_append_of_le_length (by rw [sampleHeaderBytes_length])]
  exact List.take_of_length_le (by rw [sampleHeaderBytes_length])

theorem sampleSectorBytes_length (r : Nat) : (sampleSectorBytes r).length = 136 := by
  simp only [sampleSectorBytes, List.length_append, List.length_replicate, List.length_cons,
    List.length_nil]

theorem sampleSectors_length (l : List Nat) :
    ((l.map (fun s => sampleSectorBytes (1 + s))).flatten).length = 136 * l.length := by
  induction l with
  | nil => rfl
  | cons a l ih =>
    simp only [List.map_cons, List.flatten_cons, List.length_append, List.length_cons, ih,
      sampleSectorBytes_length]
    omega

theorem sampleTrackBytes_length : sampleTrackBytes.length = 3968 := by
  simp only [sampleTrackBytes, sigTrackInfo, List.length_append, List.length_replicate,
    List.length_cons, List.length_nil, sampleSectors_length, List.length_range]

theorem sampleFile_length : sampleFile.length = 4224 := by
  unfold sampleFile
  rw [List.length_append, sampleHeaderBytes_length, sampleTrackBytes_length]

theorem sampleFile_NbTracks : (CPCEMUEnt.decode (sampleFile.take 256)).NbTracks = 1 := by
  rw [sampleFile_take]
  rfl

/-- C1, at the sample file (a well-formed one-track file of 4224 bytes):
`NewDsk` returns an image whose single track is still zero-valued, and
`Write` on that image returns the encoder's error after emitting only 256
bytes, so the file is not reproduced. -/
theorem roundtrip_sampleFile (lenient : Bool) :
    sampleFile.length = 4224 ∧ sampleFile.take 4 = sigMV ∧
    ∃ d out, NewDsk lenient (.ok sampleFile) = some (d, none) ∧
      d.Entry.NbTracks = 1 ∧ d.Entry.NbHeads = 1 ∧ d.Tracks = [CPCEMUTrack.zero] ∧
      d.Write none = some (out, some GoError.invalidType) ∧ out.length = 256 ∧
      out ≠ sampleFile := by
  have hlen : 256 ≤ sampleFile.length := by rw [sampleFile_length]; omega
  have hsig : sampleFile.take 4 = sigMV := by rfl
  have hout := CPCEMUEnt.encode_decode_length sampleFile hlen
  refine ⟨sampleFile_length, hsig, _, _, NewDsk_of_accepted lenient sampleFile hlen (Or.inl hsig),
    sampleFile_NbTracks, ?_, ?_, ?_, hout, ?_⟩
  rotate_right
  · intro heq
    rw [heq, sampleFile_length] at hout
    omega
  · rw [sampleFile_take]; rfl
  · show List.replicate (CPCEMUEnt.decode (sampleFile.take 256)).NbTracks CPCEMUTrack.zero = _
    rw [sampleFile_NbTracks]; rfl
  · apply DSK.Write_of_track _ CPCEMUTrack.zero
    · show (List.replicate (CPCEMUEnt.decode (sampleFile.take 256)).NbTracks CPCEMUTrack.zero)[0]?
        = _
      rw [sampleFile_NbTracks]; rfl
    · show 0 < (CPCEMUEnt.decode (sampleFile.take 256)).NbTracks
      rw [sampleFile_NbTracks]; omega

/-! ## Minimum sector id -/

theorem DSK.minSectLoop_spec (tr : CPCEMUTrack) (fuel : Nat) :
    ∀ (s acc : Nat), s + fuel ≤ tr.Sect.length →
      ∃ m, DSK.minSectLoop tr fuel s acc = some m ∧ m ≤ acc ∧
        (∀ j x, s ≤ j → j < s + fuel → tr.Sect[j]? = some x → m ≤ x.R) ∧
        (m = acc ∨ ∃ j x, s ≤ j ∧ j < s + fuel ∧ tr.Sect[j]? = some x ∧ m = x.R) := by
  induction fuel with
  | zero =>
    intro s acc _
    exact ⟨acc, rfl, Nat.le_refl _, fun j x h1 h2 => by omega, Or.inl rfl⟩
  | succ n ih =>
    intro s acc h
    have hs : s < tr.Sect.length := by omega
    obtain ⟨x0, hx0⟩ : ∃ x0, tr.Sect[s]? = some x0 := ⟨tr.Sect[s], List.getElem?_eq_getElem hs⟩
    obtain ⟨m, hm, hle, hall, hex⟩ := ih (s + 1) (if acc > x0.R then x0.R else acc) (by omega)
    refine ⟨m, ?_, ?_, ?_, ?_⟩
    · simp only [DSK.minSectLoop, hx0]
      exact hm
    · split at hle <;> omega
    · intro j x h1 h2 hx
      by_cases hj : j = s
      · subst hj
        rw [hx0] at hx
        cases hx
        split at hle <;> omega
      · exact hall j x (by omega) (by omega) hx
    · rcases hex with h0 | ⟨j, x, h1, h2, h3, h4⟩
      · by_cases hc : acc > x0.R
        · rw [if_pos hc] at h0
          exact Or.inr ⟨s, x0, Nat.le_refl _, by omega, hx0, h0⟩
        · rw [if_neg hc] at h0
          exact Or.inl h0
      · exact Or.inr ⟨j, x, by omega, by omega, h3, h4⟩

theorem DSK.minSectLoop_congr (tr tr2 : CPCEMUTrack) (fuel : Nat) :
    ∀ (s acc : Nat), (∀ j, j < s + fuel → tr2.Sect[j]? = tr.Sect[j]?) →
      DSK.minSectLoop tr2 fuel s acc = DSK.minSectLoop tr fuel s acc := by
  induction fuel with
  | zero => intro s acc _; rfl
  | succ n ih =>
    intro s acc h
    simp only [DSK.minSectLoop, h s (by omega)]
    cases tr.Sect[s]? with
    | none => rfl
    | some x => exact ih (s + 1) _ (fun j hj => h j (by omega))

/-- C7: on an image whose track 0 declares at most 29 sectors, `GetMinSect`
returns the minimum of the `R` fields of the first `NbSect` slots of track 0
(a lower bound of all of them that is one of them), and `0xFF` when `NbSect`
is 0; the slots from `NbSect` on, the other fields of track 0 and all other
tracks do not influence the result. -/
theorem GetMinSect_spec (d : DSK) (tr : CPCEMUTrack) (rest : List CPCEMUTrack)
    (hd : d.Tracks = tr :: rest) (hl : tr.Sect.length = 29) (hn : tr.NbSect ≤ 29)
    (hR : ∀ x ∈ tr.Sect, x.R < 256) :
    ∃ m, d.GetMinSect = some m ∧
      (tr.NbSect = 0 → m = 0xFF) ∧
      (∀ s x, s < tr.NbSect → tr.Sect[s]? = some x → m ≤ x.R) ∧
      (0 < tr.NbSect → ∃ s x, s < tr.NbSect ∧ tr.Sect[s]? = some x ∧ m = x.R) ∧
      (∀ (d2 : DSK) (tr2 : CPCEMUTrack) (rest2 : List CPCEMUTrack),
        d2.Tracks = tr2 :: rest2 → tr2.NbSect = tr.NbSect →
        (∀ s, s < tr.NbSect → tr2.Sect[s]? = tr.Sect[s]?) → d2.GetMinSect = some m) := by
  obtain ⟨m, hm, hle, hall, hex⟩ := DSK.minSectLoop_spec tr tr.NbSect 0 0xFF (by omega)
  have hget : d.GetMinSect = some m := by
    simp only [DSK.GetMinSect, hd, List.getElem?_cons_zero]
    exact hm
  refine ⟨m, hget, ?_, ?_, ?_, ?_⟩
  · intro h0
    rw [h0] at hm
    simp only [DSK.minSectLoop] at hm
    cases hm
    rfl
  · intro s x hs hx
    exact hall s x (Nat.zero_le _) (by omega) hx
  · intro hpos
    rcases hex with h0 | ⟨j, x, _, h2, h3, h4⟩
    · have h0s : (0 : Nat) < tr.Sect.length := by omega
      have hx0 : tr.Sect[0]? = some tr.Sect[0] := List.getElem?_eq_getElem h0s
      have hb := hR tr.Sect[0] (List.getElem_mem h0s)
      have hlow := hall 0 tr.Sect[0] (Nat.le_refl _) (by omega) hx0
      exact ⟨0, tr.Sect[0], hpos, hx0, by omega⟩
    · exact ⟨j, x, by omega, h3, h4⟩
  · intro d2 tr2 rest2 hd2 hnb hsame
    simp only [DSK.GetMinSect, hd2, List.getElem?_cons_zero, hnb]
    rw [DSK.minSectLoop_congr tr tr2 tr.NbSect 0 0xFF (fun j hj => hsame j (by omega))]
    exact hm

theorem GetMinSect_spec_witness :
    sampleImage.Tracks = sampleTrack :: [] ∧ sampleTrack.Sect.length = 29 ∧
    sampleTrack.NbSect ≤ 29 ∧ (∀ x ∈ sampleTrack.Sect, x.R < 256) ∧
    ∃ m, sampleImage.GetMinSect = some m ∧
      (sampleTrack.NbSect = 0 → m = 0xFF) ∧
      (∀ s x, s < sampleTrack.NbSect → sampleTrack.Sect[s]? = some x → m ≤ x.R) ∧
      (0 < sampleTrack.NbSect →
        ∃ s x, s < sampleTrack.NbSect ∧ sampleTrack.Sect[s]? = some x ∧ m = x.R) ∧
      (∀ (d2 : DSK) (tr2 : CPCEMUTrack) (rest2 : List CPCEMUTrack),
        d2.Tracks = tr2 :: rest2 → tr2.NbSect = sampleTrack.NbSect →
        (∀ s, s < sampleTrack.NbSect → tr2.Sect[s]? = sampleTrack.Sect[s]?) →
        d2.GetMinSect = some m) :=
  ⟨rfl, by decide, by decide, by decide,
   GetMinSect_spec sampleImage sampleTrack [] rfl (by decide) (by decide) (by decide)⟩

/-! ## Consistency check -/

theorem DSK.spreadLoop_isSome (tr : CPCEMUTrack) (fuel : Nat) :
    ∀ (s lo hi : Nat), s + fuel ≤ tr.Sect.length →
      ∃ p, DSK.spreadLoop tr fuel s lo hi = some p := by
  induction fuel with
  | zero => intro s lo hi _; exact ⟨_, rfl⟩
  | succ n ih =>
    intro s lo hi h
    have hs : s < tr.Sect.length := by omega
    simp only [DSK.spreadLoop, List.getElem?_eq_getElem hs]
    exact ih (s + 1) _ _ (by omega)

theorem DSK.checkTracks_isSome (d : DSK) (m : Nat)
    (hs : ∀ t ∈ d.Tracks, t.NbSect ≤ t.Sect.length) (fuel : Nat) :
    ∀ (track : Nat) (ws : List Warning), track + fuel ≤ d.Tracks.length →
      ∃ ws1, DSK.checkTracks d m fuel track ws = some ws1 := by
  induction fuel with
  | zero => intro track ws _; exact ⟨_, rfl⟩
  | succ n ih =>
    intro track ws h
    have ht : track < d.Tracks.length := by omega
    have hb := hs d.Tracks[track] (List.getElem_mem ht)
    obtain ⟨p, hp⟩ := DSK.spreadLoop_isSome d.Tracks[track] d.Tracks[track].NbSect 0 0xFF 0
      (by omega)
    simp only [DSK.checkTracks, List.getElem?_eq_getElem ht, hp]
    exact ih (track + 1) _ (by omega)

/-- C5: on a single-head image with a non-empty track sequence of at least
`min(NbTracks, 42)` tracks, each declaring at most 29 sectors, `GetMinSect`
returns some id `m`, and `CheckDsk` returns nil when `m` is `0x01`, `0x41`
or `0xC1` (whatever warnings the tracks give rise to) and
`ErrorBadSectorNumber` for every other `m`. -/
theorem CheckDsk_single_head (d : DSK) (h1 : d.Entry.NbHeads = 1) (hne : d.Tracks ≠ [])
    (hlen : min d.Entry.NbTracks 42 ≤ d.Tracks.length)
    (hs : ∀ t ∈ d.Tracks, t.Sect.length = 29 ∧ t.NbSect ≤ 29) :
    ∃ m, d.GetMinSect = some m ∧
      ((m = 0x01 ∨ m = 0x41 ∨ m = 0xC1) →
        ∃ d1 ws, d.CheckDsk = some (d1, ws, none)) ∧
      (¬ (m = 0x01 ∨ m = 0x41 ∨ m = 0xC1) →
        ∃ d1 ws, d.CheckDsk = some (d1, ws, some GoError.ErrorBadSectorNumber)) := by
  obtain ⟨tr, rest, hd⟩ : ∃ tr rest, d.Tracks = tr :: rest := by
    cases hT : d.Tracks with
    | nil => exact absurd hT hne
    | cons a l => exact ⟨a, l, rfl⟩
  have htr := hs tr (by rw [hd]; exact List.mem_cons_self _ _)
  obtain ⟨m, hm, _⟩ := DSK.minSectLoop_spec tr tr.NbSect 0 0xFF (by omega)
  have hget : d.GetMinSect = some m := by
    simp only [DSK.GetMinSect, hd, List.getElem?_cons_zero]
    exact hm
  have hsect : ∀ t ∈ d.Tracks, t.NbSect ≤ t.Sect.length := by
    intro t ht
    have h2 := hs t ht
    omega
  have hlen1 : d.Entry.NbTracks ≤ 42 → 0 + d.Entry.NbTracks ≤ d.Tracks.length := by
    intro h
    rw [Nat.min_eq_left h] at hlen
    omega
  have hlen2 : d.Entry.NbTracks > 42 → 0 + 42 ≤ d.Tracks.length := by
    intro h
    rw [Nat.min_eq_right (by omega)] at hlen
    omega
  refine ⟨m, hget, ?_, ?_⟩
  · intro hok
    have hcond : ¬ (m ≠ 0x41 ∧ m ≠ 0xc1 ∧ m ≠ 0x01) := by omega
    by_cases hbig : d.Entry.NbTracks > 42
    · obtain ⟨ws, hws⟩ := DSK.checkTracks_isSome
        { d with Entry := { d.Entry with NbTracks := 42 } } m hsect 42 0 [] (hlen2 hbig)
      refine ⟨{ d with Entry := { d.Entry with NbTracks := 42 } }, ws, ?_⟩
      unfold DSK.CheckDsk
      rw [if_pos h1, hget]
      simp only []
      rw [if_neg hcond, if_pos hbig, hws]
    · obtain ⟨ws, hws⟩ := DSK.checkTracks_isSome d m hsect d.Entry.NbTracks 0 []
        (hlen1 (by omega))
      refine ⟨d, ws, ?_⟩
      unfold DSK.CheckDsk
      rw [if_pos h1, hget]
      simp only []
      rw [if_neg hcond, if_neg hbig, hws]
  · intro hbad
    have hcond : m ≠ 0x41 ∧ m ≠ 0xc1 ∧ m ≠ 0x01 := by omega
    refine ⟨d, [], ?_⟩
    unfold DSK.CheckDsk
    rw [if_pos h1, hget]
    simp only []
    rw [if_pos hcond]

theorem CheckDsk_single_head_witness :
    sampleImage.Entry.NbHeads = 1 ∧ sampleImage.Tracks ≠ [] ∧
    min sampleImage.Entry.NbTracks 42 ≤ sampleImage.Tracks.length ∧
    (∀ t ∈ sampleImage.Tracks, t.Sect.length = 29 ∧ t.NbSect ≤ 29) ∧
    ∃ m, sampleImage.GetMinSect = some m ∧
      ((m = 0x01 ∨ m = 0x41 ∨ m = 0xC1) →
        ∃ d1 ws, sampleImage.CheckDsk = some (d1, ws, none)) ∧
      (¬ (m = 0x01 ∨ m = 0x41 ∨ m = 0xC1) →
        ∃ d1 ws, sampleImage.CheckDsk = some (d1, ws, some GoError.ErrorBadSectorNumber)) :=
  ⟨rfl, by decide, by decide, by decide,
   CheckDsk_single_head sampleImage rfl (by decide) (by decide) (by decide)⟩

/-- On the sample image (3 sectors, ids `0x41` to `0x43`) `CheckDsk` prints the
sector-count and the numbering warning and returns nil. -/
theorem sampleImage_CheckDsk :
    sampleImage.CheckDsk =
      some (sampleImage, [Warning.sectorCount 0 3, Warning.strangeNumbering 0], none) := by
  decide

/-! ## Blank synthesis -/

theorem DSK.fillData_getElem? (fuel : Nat) :
    ∀ (i : Nat) (data : List Nat) (j : Nat),
      (DSK.fillData fuel i data)[j]? =
        if i ≤ j ∧ j < i + fuel then data[j]?.map (fun _ => 0xe5) else data[j]? := by
  induction fuel with
  | zero =>
    intro i data j
    have : ¬ (i ≤ j ∧ j < i + 0) := by omega
    simp only [DSK.fillData, this, if_false]
  | succ n ih =>
    intro i data j
    simp only [DSK.fillData, ih, List.getElem?_set]
    by_cases hij : i = j
    · subst hij
      have h1 : ¬ (i + 1 ≤ i ∧ i < i + 1 + n) := by omega
      have h2 : i ≤ i ∧ i < i + (n + 1) := by omega
      simp only [h1, h2, if_false, if_true]
      by_cases hlt : i < data.length
      · simp [hlt, List.getElem?_eq_getElem hlt]
      · simp [hlt, List.getElem?_eq_none (Nat.le_of_not_lt hlt)]
    · by_cases hc : i + 1 ≤ j ∧ j < i + 1 + n
      · have h2 : i ≤ j ∧ j < i + (n + 1) := by omega
        simp only [hc, h2, hij, if_true, if_false, and_self]
      · have h2 : ¬ (i ≤ j ∧ j < i + (n + 1)) := by omega
        simp only [hc, h2, hij, if_false]

theorem DSK.fillData_replicate (n : Nat) :
    DSK.fillData n 0 (List.replicate n 0) = List.replicate n 0xe5 := by
  apply List.ext_getElem?
  intro j
  rw [DSK.fillData_getElem?]
  simp only [List.getElem?_replicate, Nat.zero_le, true_and, Nat.zero_add]
  by_cases hj : j < n <;> simp [hj]

theorem getElem?_range_map {α : Type} (f : Nat → α) (n j : Nat) :
    ((List.range n).map f)[j]? = if j < n then some (f j) else none := by
  by_cases hj : j < n
  · simp [hj, List.getElem?_range hj]
  · simp [hj, List.getElem?_eq_none (l := List.range n) (by simpa using Nat.le_of_not_lt hj)]

theorem set_range_map {α : Type} (f : Nat → α) (z : α) (n s : Nat) (hs : s < n) :
    ((List.range n).map (fun j => if j < s then f j else z)).set s (f s) =
      (List.range n).map (fun j => if j < s + 1 then f j else z) := by
  apply List.ext_getElem?
  intro j
  rw [List.getElem?_set, getElem?_range_map, getElem?_range_map, List.length_map,
    List.length_range]
  by_cases hsj : s = j
  · subst hsj
    simp [hs]
  · by_cases hj : j < n
    · by_cases h1 : j < s
      · have h2 : j < s + 1 := by omega
        simp [hsj, hj, h1, h2]
      · have h2 : ¬ j < s + 1 := by omega
        simp [hsj, hj, h1, h2]
    · simp [hsj, hj]

theorem replicate_eq_range_map {α : Type} (f : Nat → α) (z : α) (n : Nat) :
    List.replicate n z = (List.range n).map (fun j => if j < 0 then f j else z) := by
  apply List.ext_getElem?
  intro j
  rw [getElem?_range_map, List.getElem?_replicate]
  simp only [Nat.not_lt_zero, if_false]

theorem range_map_full {α : Type} (f : Nat → α) (z : α) (n : Nat) :
    (List.range n).map (fun j => if j < n then f j else z) = (List.range n).map f := by
  apply List.map_congr_left
  intro j hj
  rw [if_pos (List.mem_range.mp hj)]

theorem DSK.formatSectors_eq (track minSect : Nat) (fuel : Nat) :
    ∀ (s : Nat) (t : CPCEMUTrack), s + fuel ≤ 29 →
      t.Sect = (List.range 29).map
        (fun j => if j < s then formattedSect track minSect j else CPCEMUSect.zero) →
      DSK.formatSectors track minSect fuel s s t =
        some { t with
          Sect := (List.range 29).map
            (fun j => if j < s + fuel then formattedSect track minSect j
              else CPCEMUSect.zero) } := by
  induction fuel with
  | zero =>
    intro s t _ ht
    simp only [DSK.formatSectors, Nat.add_zero, ← ht]
  | succ n ih =>
    intro s t h ht
    have hs : s < 29 := by omega
    have hget : t.Sect[s]? = some CPCEMUSect.zero := by
      rw [ht, getElem?_range_map]
      simp [hs]
    have hss : (s + 1) % 256 = s + 1 := Nat.mod_eq_of_lt (by omega)
    simp only [DSK.formatSectors, hget, hss, DSK.fillData_replicate]
    have hsect : ({ CPCEMUSect.zero with
        C := track, H := 0, R := (s + minSect) % 256, N := 2, SizeByte := 0x200,
        Data := List.replicate 0x200 0xe5 } : CPCEMUSect) = formattedSect track minSect s := rfl
    rw [hsect]
    have hstep := ih (s + 1)
      { t with Sect := t.Sect.set s (formattedSect track minSect s) } (by omega)
      (by
        show t.Sect.set s (formattedSect track minSect s) = _
        rw [ht, set_range_map (formattedSect track minSect) CPCEMUSect.zero 29 s hs])
    rw [hstep]
    have harith : s + 1 + n = s + (n + 1) := by omega
    simp only [harith]

theorem DSK.FormatTrack_eq (d : DSK) (track minSect nbSect : Nat) (hn : nbSect ≤ 29)
    (ht : track < d.Tracks.length) :
    d.FormatTrack track minSect nbSect =
      some { d with Tracks := d.Tracks.set track (formattedTrack track minSect nbSect) } := by
  have hz : CPCEMUTrack.zero.Sect = (List.range 29).map
      (fun j => if j < 0 then formattedSect track minSect j else CPCEMUSect.zero) :=
    replicate_eq_range_map (formattedSect track minSect) CPCEMUSect.zero 29
  have hfs := DSK.formatSectors_eq track minSect nbSect 0
    { CPCEMUTrack.zero with
      ID := copyBytes CPCEMUTrack.zero.ID sigTrackInfo, Track := track, Head := 0,
      SectSize := 2, NbSect := nbSect, Gap3 := 0x4E, OctRemp := 0xE5 } (by omega) hz
  simp only [DSK.FormatTrack, hfs, ht, if_true, Nat.zero_add]
  rfl

/-- A panic-free `FormatTrack` keeps the header and the number of tracks. -/
theorem DSK.FormatTrack_frame (d d1 : DSK) (track minSect nbSect : Nat)
    (h : d.FormatTrack track minSect nbSect = some d1) :
    d1.Entry = d.Entry ∧ d1.Tracks.length = d.Tracks.length := by
  unfold DSK.FormatTrack at h
  simp only [] at h
  split at h
  · cases h
  · split at h
    · cases h
      exact ⟨rfl, List.length_set _ _ _⟩
    · cases h

theorem FormatDsk.formatTracks_frame (nbSect : Nat) (fuel : Nat) :
    ∀ (i : Nat) (dsk d : DSK), FormatDsk.formatTracks nbSect fuel i dsk = some d →
      d.Entry = dsk.Entry ∧ d.Tracks.length = dsk.Tracks.length := by
  induction fuel with
  | zero =>
    intro i dsk d h
    simp only [FormatDsk.formatTracks] at h
    cases h
    exact ⟨rfl, rfl⟩
  | succ n ih =>
    intro i dsk d h
    simp only [FormatDsk.formatTracks] at h
    cases hft : dsk.FormatTrack i 0xC1 nbSect with
    | none => rw [hft] at h; cases h
    | some dsk1 =>
      rw [hft] at h
      have h1 := DSK.FormatTrack_frame dsk dsk1 i 0xC1 nbSect hft
      have h2 := ih (i + 1) dsk1 d h
      exact ⟨h2.1.trans h1.1, h2.2.trans h1.2⟩

theorem FormatDsk.formatTracks_eq (nbSect total : Nat) (hn : nbSect ≤ 29) (fuel : Nat) :
    ∀ (i : Nat) (dsk : DSK), i + fuel ≤ total →
      dsk.Tracks = (List.range total).map
        (fun j => if j < i then formattedTrack j 0xC1 nbSect else CPCEMUTrack.zero) →
      FormatDsk.formatTracks nbSect fuel i dsk =
        some { dsk with
          Tracks := (List.range total).map
            (fun j => if j < i + fuel then formattedTrack j 0xC1 nbSect
              else CPCEMUTrack.zero) } := by
  induction fuel with
  | zero =>
    intro i dsk _ ht
    simp only [FormatDsk.formatTracks, Nat.add_zero, ← ht]
  | succ n ih =>
    intro i dsk h ht
    have hi : i < total := by omega
    have hlen : i < dsk.Tracks.length := by
      rw [ht, List.length_map, List.length_range]
      exact hi
    simp only [FormatDsk.formatTracks, DSK.FormatTrack_eq dsk i 0xC1 nbSect hn hlen]
    have hstep := ih (i + 1)
      { dsk with Tracks := dsk.Tracks.set i (formattedTrack i 0xC1 nbSect) } (by omega)
      (by
        show dsk.Tracks.set i (formattedTrack i 0xC1 nbSect) = _
        rw [ht, set_range_map (fun j => formattedTrack j 0xC1 nbSect) CPCEMUTrack.zero total i hi])
    rw [hstep]
    have harith : i + 1 + n = i + (n + 1) := by omega
    simp only [harith]

/-- For at most 29 sectors per track `FormatDsk` returns the closed-form image. -/
theorem FormatDsk_eq (nbSect nbTrack : Nat) (hn : nbSect ≤ 29) :
    FormatDsk nbSect nbTrack = some (formattedDsk nbSect nbTrack) := by
  unfold FormatDsk
  simp only []
  rw [FormatDsk.formatTracks_eq nbSect nbTrack hn nbTrack 0 _ (by omega)
    (replicate_eq_range_map (fun j => formattedTrack j 0xC1 nbSect) CPCEMUTrack.zero nbTrack)]
  simp only [Nat.zero_add, range_map_full]
  rfl

theorem formattedTrack_Sect_getElem? (track minSect nbSect s : Nat) (hs : s < nbSect)
    (hn : nbSect ≤ 29) :
    (formattedTrack track minSect nbSect).Sect[s]? = some (formattedSect track minSect s) := by
  show ((List.range 29).map _)[s]? = _
  rw [getElem?_range_map, if_pos (by omega), if_pos hs]

theorem formattedDsk_Tracks_getElem? (nbSect nbTrack t : Nat) (ht : t < nbTrack) :
    (formattedDsk nbSect nbTrack).Tracks[t]? = some (formattedTrack t 0xC1 nbSect) := by
  show ((List.range nbTrack).map _)[t]? = _
  rw [getElem?_range_map, if_pos ht]

/-- C8: for `1 ≤ nbSect ≤ 29` and `nbTrack ≥ 1`, `FormatDsk(nbSect, nbTrack)`
returns an image in which every track `t < nbTrack` holds at each array
position `s < nbSect` a sector with id `R = 0xC1 + s`, and `GetMinSect` on
that image returns `0xC1`. -/
theorem FormatDsk_sector_ids (nbSect nbTrack : Nat) (h1 : 1 ≤ nbSect) (h2 : nbSect ≤ 29)
    (h3 : 1 ≤ nbTrack) :
    ∃ d, FormatDsk nbSect nbTrack = some d ∧
      (∀ t s, t < nbTrack → s < nbSect →
        ∃ tr x, d.Tracks[t]? = some tr ∧ tr.Sect[s]? = some x ∧ x.R = 0xC1 + s) ∧
      d.GetMinSect = some 0xC1 := by
  refine ⟨formattedDsk nbSect nbTrack, FormatDsk_eq nbSect nbTrack h2, ?_, ?_⟩
  · intro t s ht hs
    refine ⟨_, _, formattedDsk_Tracks_getElem? nbSect nbTrack t ht,
      formattedTrack_Sect_getElem? t 0xC1 nbSect s hs h2, ?_⟩
    show (s + 0xC1) % 256 = 0xC1 + s
    omega
  · have hlen : (formattedTrack 0 0xC1 nbSect).Sect.length = 29 := by
      show ((List.range 29).map _).length = 29
      rw [List.length_map, List.length_range]
    obtain ⟨m, hm, _, hall, hex⟩ :=
      DSK.minSectLoop_spec (formattedTrack 0 0xC1 nbSect) nbSect 0 0xFF (by omega)
    have hR : ∀ j, j < nbSect → (formattedSect 0 0xC1 j).R = 0xC1 + j := by
      intro j hj
      show (j + 0xC1) % 256 = 0xC1 + j
      omega
    have hm0 : m ≤ 0xC1 := by
      have := hall 0 _ (Nat.le_refl _) (by omega)
        (formattedTrack_Sect_getElem? 0 0xC1 nbSect 0 (by omega) h2)
      rw [hR 0 (by omega)] at this
      exact this
    have hmeq : m = 0xC1 := by
      rcases hex with h0 | ⟨j, x, _, hj, hx, hmx⟩
      · omega
      · rw [formattedTrack_Sect_getElem? 0 0xC1 nbSect j (by omega) h2] at hx
        cases hx
        rw [hR j (by omega)] at hmx
        omega
    simp only [DSK.GetMinSect, formattedDsk_Tracks_getElem? nbSect nbTrack 0 (by omega)]
    show DSK.minSectLoop (formattedTrack 0 0xC1 nbSect) nbSect 0 0xFF = some 0xC1
    rw [hm, hmeq]

theorem FormatDsk_sector_ids_witness :
    1 ≤ 9 ∧ 9 ≤ 29 ∧ 1 ≤ 40 ∧
    ∃ d, FormatDsk 9 40 = some d ∧
      (∀ t s, t < 40 → s < 9 →
        ∃ tr x, d.Tracks[t]? = some tr ∧ tr.Sect[s]? = some x ∧ x.R = 0xC1 + s) ∧
      d.GetMinSect = some 0xC1 :=
  ⟨by decide, by decide, by decide,
   FormatDsk_sector_ids 9 40 (by decide) (by decide) (by decide)⟩

/-- C9, as the code has it: whenever `FormatDsk(nbSect, nbTrack)` returns an
image, its header carries the 34-byte signature followed by 14 zero bytes,
`DataSize = (0x21C * nbSect) mod 2^16` (which is `0x21C * nbSect` for
`nbSect ≤ 121`), head count 1 and track count `nbTrack`, and the track
sequence has length `nbTrack`. -/
theorem FormatDsk_header (nbSect nbTrack : Nat) (d : DSK)
    (h : FormatDsk nbSect nbTrack = some d) :
    d.Entry.Debut = sigDiskInfo ++ List.replicate 14 0 ∧
    d.Entry.DataSize = (0x21C * nbSect) % 65536 ∧
    (nbSect ≤ 121 → d.Entry.DataSize = 0x21C * nbSect) ∧
    d.Entry.NbHeads = 1 ∧ d.Entry.NbTracks = nbTrack ∧ d.Tracks.length = nbTrack := by
  unfold FormatDsk at h
  simp only [] at h
  obtain ⟨he, hl⟩ := FormatDsk.formatTracks_frame nbSect nbTrack 0 _ d h
  rw [he, hl]
  refine ⟨rfl, rfl, ?_, rfl, rfl, List.length_replicate _ _⟩
  intro hle
  show (0x21c * nbSect) % 65536 = 0x21C * nbSect
  omega

theorem FormatDsk_header_witness :
    FormatDsk 9 40 = some (formattedDsk 9 40) ∧
    (formattedDsk 9 40).Entry.Debut = sigDiskInfo ++ List.replicate 14 0 ∧
    (formattedDsk 9 40).Entry.DataSize = (0x21C * 9) % 65536 ∧
    (9 ≤ 121 → (formattedDsk 9 40).Entry.DataSize = 0x21C * 9) ∧
    (formattedDsk 9 40).Entry.NbHeads = 1 ∧ (formattedDsk 9 40).Entry.NbTracks = 40 ∧
    (formattedDsk 9 40).Tracks.length = 40 :=
  ⟨FormatDsk_eq 9 40 (by decide),
   FormatDsk_header 9 40 (formattedDsk 9 40) (FormatDsk_eq 9 40 (by decide))⟩

/-- C9, as stated, fails at `FormatDsk(122, 0)`: the image is returned (no
track is formatted) and its `DataSize` is 344, not `0x21C * 122 = 65880`. -/
theorem FormatDsk_DataSize_wraps :
    (FormatDsk 122 0).map (fun d => (d.Tracks.length, d.Entry.DataSize)) = some (0, 344) ∧
    0x21C * 122 = 65880 := by
  constructor
  · rfl
  · rfl

/-! ## Addressing -/

/-- C6, at two images: on a slot with `R = 0 = sect`, `SizeByte = 0` and
`N = 0`, `GetPosData(0, 0, true)` returns 0 (where `128 << N` is 128); on a
slot with `R = 0 = sect`, `SizeByte = 0x200` and `N = 1` it returns
`128 << 1 = 256`, not the declared byte length 512. -/
theorem GetPosData_branches_swapped :
    (posImage 0 0).GetPosData 0 0 true = some 0 ∧
    (posImage 1 0x200).GetPosData 0 0 true = some 256 ∧
    (FormatDsk 0 1).bind (fun d => d.GetPosData 0 0 true) = some 0 := by
  refine ⟨by rfl, by rfl, ?_⟩
  rw [FormatDsk_eq 0 1 (by decide)]
  rfl

/-! ## Size of the records of a formatted image -/

theorem CPCEMUSect.encode_length (x : CPCEMUSect) : x.encode.length = 8 + x.Data.length := by
  simp only [CPCEMUSect.encode, putUint16, List.length_append, List.length_cons,
    List.length_nil]

theorem formattedSlot_encode_length (track minSect nbSect j : Nat) :
    (CPCEMUSect.encode
      (if j < nbSect then formattedSect track minSect j else CPCEMUSect.zero)).length =
      if j < nbSect then 8 + 512 else 8 := by
  rw [CPCEMUSect.encode_length]
  by_cases hj : j < nbSect
  · rw [if_pos hj, if_pos hj]
    show 8 + (List.replicate 0x200 0xe5).length = 8 + 512
    rw [List.length_replicate]
  · rw [if_neg hj, if_neg hj]
    rfl

theorem formattedTrack_encode_length (track minSect nbSect : Nat) :
    (formattedTrack track minSect nbSect).encode.length =
      24 + ((List.range 29).map (fun j => if j < nbSect then 8 + 512 else 8)).sum := by
  have hsum : (((formattedTrack track minSect nbSect).Sect.map CPCEMUSect.encode).flatten).length
      = ((List.range 29).map (fun j => if j < nbSect then 8 + 512 else 8)).sum := by
    unfold formattedTrack
    simp only []
    rw [List.length_flatten, List.map_map, List.map_map]
    congr 1
    apply List.map_congr_left
    intro j _
    exact formattedSlot_encode_length track minSect nbSect j
  unfold CPCEMUTrack.encode
  rw [List.length_append, hsum]
  simp only [formattedTrack, sigTrackInfo, List.length_append, List.length_replicate,
    List.length_cons, List.length_nil]

theorem formattedTrack_encode_length_9 (track minSect : Nat) :
    (formattedTrack track minSect 9).encode.length = 24 + 9 * (8 + 512) + 20 * 8 := by
  rw [formattedTrack_encode_length]
  rfl

theorem formattedDsk_Entry_encode_length (nbSect nbTrack : Nat) :
    (formattedDsk nbSect nbTrack).Entry.encode.length = 256 := by
  simp only [formattedDsk, CPCEMUEnt.encode, putUint16, sigDiskInfo, List.length_append,
    List.length_replicate, List.length_cons, List.length_nil]

theorem truncatedFile_take : truncatedFile.take 256 = sampleHeaderBytes := by
  unfold truncatedFile
  rw [List.take_append_of_le_length (by rw [sampleHeaderBytes_length])]
  exact List.take_of_length_le (by rw [sampleHeaderBytes_length])

theorem truncatedFile_le : 256 ≤ truncatedFile.length := by
  unfold truncatedFile
  rw [List.length_append, sampleHeaderBytes_length]
  omega

theorem truncatedFile_NbTracks : (CPCEMUEnt.decode (truncatedFile.take 256)).NbTracks = 1 := by
  rw [truncatedFile_take]
  rfl

theorem NewDsk_truncatedFile_eq (lenient : Bool) :
    NewDsk lenient (.ok truncatedFile) =
      some ({ Entry := CPCEMUEnt.decode sampleHeaderBytes, Tracks := [CPCEMUTrack.zero] },
        none) := by
  rw [NewDsk_of_accepted lenient truncatedFile truncatedFile_le (Or.inl (by rfl)),
    truncatedFile_NbTracks, truncatedFile_take]
  rfl

/-- C11, as stated, fails at `truncatedFile` (track 0 declares 2 sectors, the
first complete, the second cut short): `NewDsk` returns nil and an image whose
track 0 is the zero-valued track, with `NbSect = 0`, a zero signature and slot
0 empty, not the decoded header fields and the first sector. -/
theorem NewDsk_truncatedFile :
    NewDsk false (.ok truncatedFile) =
      some ({ Entry := CPCEMUEnt.decode sampleHeaderBytes, Tracks := [CPCEMUTrack.zero] },
        none) ∧
    NewDsk true (.ok truncatedFile) =
      some ({ Entry := CPCEMUEnt.decode sampleHeaderBytes, Tracks := [CPCEMUTrack.zero] },
        none) ∧
    CPCEMUTrack.zero.NbSect = 0 ∧ CPCEMUTrack.zero.ID = List.replicate 16 0 ∧
    CPCEMUTrack.zero.Sect[0]? = some CPCEMUSect.zero :=
  ⟨NewDsk_truncatedFile_eq false, NewDsk_truncatedFile_eq true, rfl, rfl, rfl⟩

/-- C11, as the code has it: on a file with a full, accepted header `NewDsk`
returns a nil error and an image of `Entry.NbTracks` tracks in which every
track whose read returned an error is left zero-valued; no track read
succeeds, so this holds for every track `k`, a truncated one included. -/
theorem NewDsk_failed_track_zero (lenient : Bool) (f : List Nat) (h : 256 ≤ f.length)
    (hs : f.take 4 = sigMV ∨ f.take 16 = sigExtended) :
    ∃ d, NewDsk lenient (.ok f) = some (d, none) ∧ d.Tracks.length = d.Entry.NbTracks ∧
      ∀ k, k < d.Entry.NbTracks → d.Tracks[k]? = some CPCEMUTrack.zero := by
  rw [NewDsk_of_accepted lenient f h hs]
  refine ⟨_, rfl, by simp, ?_⟩
  intro k hk
  simp only [List.getElem?_replicate]
  rw [if_pos hk]

theorem NewDsk_failed_track_zero_witness :
    256 ≤ truncatedFile.length ∧
    (truncatedFile.take 4 = sigMV ∨ truncatedFile.take 16 = sigExtended) ∧
    ∃ d, NewDsk false (.ok truncatedFile) = some (d, none) ∧
      d.Tracks.length = d.Entry.NbTracks ∧
      ∀ k, k < d.Entry.NbTracks → d.Tracks[k]? = some CPCEMUTrack.zero :=
  ⟨truncatedFile_le, Or.inl (by rfl),
   NewDsk_failed_track_zero false truncatedFile truncatedFile_le (Or.inl (by rfl))⟩

/-! ## Sector record -/

/-- C12, at `sampleSectorStream` (a complete record of 8 + 2 bytes) read into
a fresh sector: on current Go releases `CPCEMUSect.Read` consumes one byte
and returns the `invalid type` error; where the by-value reads are accepted
it returns nil after consuming 7 bytes, leaving `0, 0xAA, 0xBB` unread. In
both cases every field of the sector is still zero and `Data` is empty. -/
theorem CPCEMUSect_Read_sampleSectorStream :
    CPCEMUSect.Read false CPCEMUSect.zero sampleSectorStream =
      (CPCEMUSect.zero, [2, 3, 4, 5, 0, 2, 0, 0xAA, 0xBB], some GoError.invalidType) ∧
    CPCEMUSect.Read true CPCEMUSect.zero sampleSectorStream =
      (CPCEMUSect.zero, [0, 0xAA, 0xBB], none) := by
  constructor
  · decide
  · decide

/-! ## Header record -/

theorem CPCEMUEnt.encode_eq (h : CPCEMUEnt) :
    h.encode = h.Debut ++
      (h.NbTracks :: h.NbHeads :: (h.DataSize % 256) :: (h.DataSize / 256 % 256) :: h.Unused) := by
  simp only [CPCEMUEnt.encode, putUint16, List.append_assoc, List.cons_append, List.nil_append]

theorem CPCEMUEnt.header_record_length (h : CPCEMUEnt) (hwf : h.WF) : h.encode.length = 256 := by
  obtain ⟨h1, _, _, _, _, h6, _⟩ := hwf
  simp only [CPCEMUEnt.encode, putUint16, List.length_append, List.length_cons,
    List.length_nil, h1, h6]

theorem CPCEMUEnt.decode_encode (h : CPCEMUEnt) (hwf : h.WF) :
    CPCEMUEnt.decode h.encode = h := by
  obtain ⟨h1, _, _, _, h5, h6, _⟩ := hwf
  have hle : h.Debut.length ≤ 0x30 := by omega
  have e0 : (0x30 : Nat) - h.Debut.length = 0 := by omega
  have hle1 : h.Debut.length ≤ 0x31 := by omega
  have e1 : (0x31 : Nat) - h.Debut.length = 1 := by omega
  have hle2 : h.Debut.length ≤ 0x32 := by omega
  have e2 : (0x32 : Nat) - h.Debut.length = 2 := by omega
  have hle3 : h.Debut.length ≤ 0x33 := by omega
  have e3 : (0x33 : Nat) - h.Debut.length = 3 := by omega
  have hdrop : (0x34 : Nat) = h.Debut.length + 4 := by omega
  have hds : getUint16 (h.DataSize % 256) (h.DataSize / 256 % 256) = h.DataSize := by
    unfold getUint16
    omega
  rw [CPCEMUEnt.encode_eq]
  unfold CPCEMUEnt.decode
  rw [List.take_left' h1, List.getD_eq_getElem?_getD, List.getD_eq_getElem?_getD,
    List.getD_eq_getElem?_getD, List.getD_eq_getElem?_getD,
    List.getElem?_append_right hle, List.getElem?_append_right hle1,
    List.getElem?_append_right hle2, List.getElem?_append_right hle3, e0, e1, e2, e3, hdrop,
    List.drop_append]
  simp only [List.getElem?_cons_zero, List.getElem?_cons_succ, Option.getD_some, List.drop_succ_cons,
    List.drop_zero, hds]
  rw [List.take_of_length_le (by omega)]

theorem binaryWrite_CPCEMUEnt (enc : List Nat) :
    binaryWrite CPCEMUEnt.goType enc = .ok enc := by
  simp only [binaryWrite, sizeof_CPCEMUEnt]

theorem DSK.writeTracks_prefix (d : DSK) (fuel : Nat) :
    ∀ (t : Nat) (out out1 : List Nat) (err : Option GoError),
      DSK.writeTracks d fuel t out = some (out1, err) → out1.take out.length = out := by
  induction fuel with
  | zero =>
    intro t out out1 err h
    simp only [DSK.writeTracks] at h
    cases h
    exact List.take_length _
  | succ n ih =>
    intro t out out1 err h
    simp only [DSK.writeTracks] at h
    cases hget : d.Tracks[t]? with
    | none => rw [hget] at h; cases h
    | some tr =>
      rw [hget] at h
      simp only [] at h
      cases hw : binaryWrite CPCEMUTrack.goType tr.encode with
      | error e =>
        rw [hw] at h
        cases h
        exact List.take_length _
      | ok bs =>
        rw [hw] at h
        have h2 := ih (t + 1) (out ++ bs) out1 err h
        have h3 := congrArg (List.take out.length) h2
        rw [List.take_take, List.length_append, Nat.min_eq_left (Nat.le_add_right _ _),
          List.take_left' rfl] at h3
        exact h3

/-- C13: for every header value `h` within the ranges of its Go type, the
header record has exactly 256 bytes, laid out as the 48 signature bytes, the
track count, the head count, `DataSize` in little-endian order and the 204
unused bytes; these are what `binary.Write` writes for the header and the
first 256 bytes of every file `Write` leaves; and reading them back as
`NewDsk` reads a header yields `h` again. -/
theorem CPCEMUEnt_roundtrip (h : CPCEMUEnt) (hwf : h.WF) :
    h.encode.length = 256 ∧ h.Debut.length = 48 ∧ h.Unused.length = 204 ∧
    h.encode = h.Debut ++ [h.NbTracks] ++ [h.NbHeads] ++
      [h.DataSize % 256, h.DataSize / 256] ++ h.Unused ∧
    binaryWrite CPCEMUEnt.goType h.encode = .ok h.encode ∧
    (∀ (d : DSK) (out : List Nat) (err : Option GoError),
      d.Entry = h → d.Write none = some (out, err) → out.take 256 = h.encode) ∧
    CPCEMUEnt.decode h.encode = h ∧
    (∀ rest : List Nat, binaryReadEnt (h.encode ++ rest) = (.ok h, rest)) := by
  have hlen := CPCEMUEnt.header_record_length h hwf
  have hdec := CPCEMUEnt.decode_encode h hwf
  refine ⟨hlen, hwf.1, hwf.2.2.2.2.2.1, ?_, binaryWrite_CPCEMUEnt _, ?_, hdec, ?_⟩
  · have h5 : h.DataSize < 65536 := hwf.2.2.2.2.1
    have hmod : h.DataSize / 256 % 256 = h.DataSize / 256 := by omega
    rw [CPCEMUEnt.encode_eq, hmod]
    simp only [List.append_assoc, List.cons_append, List.nil_append]
  · intro d out err hd hw
    subst hd
    unfold DSK.Write at hw
    simp only [binaryWrite_CPCEMUEnt] at hw
    have := DSK.writeTracks_prefix d _ _ _ _ _ hw
    rw [hlen] at this
    exact this
  · intro rest
    rw [binaryReadEnt_of_le _ (by rw [List.length_append, hlen]; omega),
      List.take_left' hlen, List.drop_left' hlen, hdec]

theorem formattedDsk_Entry_WF (nbSect nbTrack : Nat) (hn : nbTrack < 256) :
    (formattedDsk nbSect nbTrack).Entry.WF := by
  have hsig : ∀ b ∈ sigDiskInfo, b < 256 := by decide
  have hlen : (sigDiskInfo ++ List.replicate 14 0).length = 0x30 := by
    simp only [sigDiskInfo, List.length_append, List.length_replicate, List.length_cons,
      List.length_nil]
  have hheads : (1 : Nat) < 256 := by decide
  refine ⟨hlen, ?_, hn, hheads, Nat.mod_lt _ (by decide), List.length_replicate _ _, ?_⟩
  · intro b hb
    rcases List.mem_append.mp hb with h1 | h1
    · exact hsig b h1
    · rw [List.eq_of_mem_replicate h1]
      decide
  · intro b hb
    rw [List.eq_of_mem_replicate hb]
    decide

theorem CPCEMUEnt_roundtrip_witness :
    (formattedDsk 9 40).Entry.WF ∧
    (formattedDsk 9 40).Entry.encode.length = 256 ∧
    (formattedDsk 9 40).Entry.Debut.length = 48 ∧
    (formattedDsk 9 40).Entry.Unused.length = 204 ∧
    (formattedDsk 9 40).Entry.encode =
      (formattedDsk 9 40).Entry.Debut ++ [(formattedDsk 9 40).Entry.NbTracks] ++
        [(formattedDsk 9 40).Entry.NbHeads] ++
        [(formattedDsk 9 40).Entry.DataSize % 256, (formattedDsk 9 40).Entry.DataSize / 256] ++
        (formattedDsk 9 40).Entry.Unused ∧
    binaryWrite CPCEMUEnt.goType (formattedDsk 9 40).Entry.encode
      = .ok (formattedDsk 9 40).Entry.encode ∧
    (∀ (d : DSK) (out : List Nat) (err : Option GoError),
      d.Entry = (formattedDsk 9 40).Entry → d.Write none = some (out, err) →
      out.take 256 = (formattedDsk 9 40).Entry.encode) ∧
    CPCEMUEnt.decode (formattedDsk 9 40).Entry.encode = (formattedDsk 9 40).Entry ∧
    (∀ rest : List Nat,
      binaryReadEnt ((formattedDsk 9 40).Entry.encode ++ rest)
        = (.ok (formattedDsk 9 40).Entry, rest)) :=
  ⟨formattedDsk_Entry_WF 9 40 (by decide),
   CPCEMUEnt_roundtrip (formattedDsk 9 40).Entry (formattedDsk_Entry_WF 9 40 (by decide))⟩

/-! ## Track records are never written -/

/-- C14, at the image `FormatDsk(9, 1)`: its only track record would take
`24 + 9 * (8 + 512) + 20 * 8` bytes, but `Write` returns the encoder's error
for it and the file holds the 256 header bytes only, so no track header and
no sector slot is emitted. -/
theorem Write_emits_no_track_record :
    FormatDsk 9 1 = some (formattedDsk 9 1) ∧
    (formattedDsk 9 1).Entry.NbTracks = 1 ∧
    (formattedDsk 9 1).Tracks[0]? = some (formattedTrack 0 0xC1 9) ∧
    (formattedTrack 0 0xC1 9).encode.length = 24 + 9 * (8 + 512) + 20 * 8 ∧
    (formattedDsk 9 1).Write none
      = some ((formattedDsk 9 1).Entry.encode, some GoError.invalidType) ∧
    (formattedDsk 9 1).Entry.encode.length = 256 :=
  ⟨FormatDsk_eq 9 1 (by decide), rfl, formattedDsk_Tracks_getElem? 9 1 0 (by decide),
   formattedTrack_encode_length_9 0 0xC1,
   DSK.Write_of_track (formattedDsk 9 1) (formattedTrack 0 0xC1 9)
     (formattedDsk_Tracks_getElem? 9 1 0 (by decide)) (by decide),
   formattedDsk_Entry_encode_length 9 1⟩

/-! ## Effect of `CheckDsk` on the image -/

theorem DSK.clampTracks_Tracks (d : DSK) : d.clampTracks.Tracks = d.Tracks := by
  unfold DSK.clampTracks
  split <;> rfl

theorem DSK.clampTracks_NbTracks (d : DSK) :
    d.clampTracks.Entry.NbTracks = min d.Entry.NbTracks 42 := by
  unfold DSK.clampTracks
  split
  · rename_i h
    show 42 = min d.Entry.NbTracks 42
    omega
  · rename_i h
    show d.Entry.NbTracks = min d.Entry.NbTracks 42
    omega

theorem DSK.clampTracks_Entry (d : DSK) :
    d.clampTracks.Entry.Debut = d.Entry.Debut ∧ d.clampTracks.Entry.NbHeads = d.Entry.NbHeads ∧
    d.clampTracks.Entry.DataSize = d.Entry.DataSize ∧
    d.clampTracks.Entry.Unused = d.Entry.Unused := by
  unfold DSK.clampTracks
  split <;> exact ⟨rfl, rfl, rfl, rfl⟩

/-- Every result of `CheckDsk`: one of the two errors with the image
untouched, or nil with the track count clamped. -/
theorem DSK.CheckDsk_cases (d d1 : DSK) (ws : List Warning) (err : Option GoError)
    (h : d.CheckDsk = some (d1, ws, err)) :
    (err = some .ErrorUnsupportedMultiHeadDsk ∧ d1 = d ∧ ws = [] ∧ d.Entry.NbHeads ≠ 1) ∨
    (err = some .ErrorBadSectorNumber ∧ d1 = d ∧ ws = [] ∧ d.Entry.NbHeads = 1 ∧
      ∃ m, d.GetMinSect = some m ∧ m ≠ 0x41 ∧ m ≠ 0xc1 ∧ m ≠ 0x01) ∨
    (err = none ∧ d1 = d.clampTracks ∧ d.Entry.NbHeads = 1) := by
  unfold DSK.CheckDsk at h
  by_cases h1 : d.Entry.NbHeads = 1
  · rw [if_pos h1] at h
    cases hget : d.GetMinSect with
    | none => rw [hget] at h; cases h
    | some m =>
      rw [hget] at h
      simp only [] at h
      by_cases hc : m ≠ 0x41 ∧ m ≠ 0xc1 ∧ m ≠ 0x01
      · rw [if_pos hc] at h
        cases h
        exact Or.inr (Or.inl ⟨rfl, rfl, rfl, h1, m, rfl, hc⟩)
      · rw [if_neg hc] at h
        change (match DSK.checkTracks d.clampTracks m d.clampTracks.Entry.NbTracks 0 [] with
          | none => none
          | some ws => some (d.clampTracks, ws, none)) = some (d1, ws, err) at h
        cases hct : DSK.checkTracks d.clampTracks m d.clampTracks.Entry.NbTracks 0 [] with
        | none => rw [hct] at h; cases h
        | some ws1 =>
          rw [hct] at h
          cases h
          exact Or.inr (Or.inr ⟨rfl, rfl, h1⟩)
  · rw [if_neg h1] at h
    cases h
    exact Or.inl ⟨rfl, rfl, rfl, h1⟩

/-- C16: when `CheckDsk` returns nil, the track count after the call is
`min(track count before, 42)` and nothing else has changed: signature, head
count, `DataSize`, the unused header bytes and the whole track sequence are
those of the image before the call. -/
theorem CheckDsk_frame (d d1 : DSK) (ws : List Warning)
    (h : d.CheckDsk = some (d1, ws, none)) :
    d1.Entry.NbTracks = min d.Entry.NbTracks 42 ∧
    d1.Entry.Debut = d.Entry.Debut ∧ d1.Entry.NbHeads = d.Entry.NbHeads ∧
    d1.Entry.DataSize = d.Entry.DataSize ∧ d1.Entry.Unused = d.Entry.Unused ∧
    d1.Tracks = d.Tracks := by
  rcases DSK.CheckDsk_cases d d1 ws none h with ⟨he, _⟩ | ⟨he, _⟩ | ⟨_, hd, _⟩
  · cases he
  · cases he
  · subst hd
    obtain ⟨e1, e2, e3, e4⟩ := DSK.clampTracks_Entry d
    exact ⟨DSK.clampTracks_NbTracks d, e1, e2, e3, e4, DSK.clampTracks_Tracks d⟩

theorem CheckDsk_frame_witness :
    sampleImage.CheckDsk =
      some (sampleImage, [Warning.sectorCount 0 3, Warning.strangeNumbering 0], none) ∧
    sampleImage.Entry.NbTracks = min sampleImage.Entry.NbTracks 42 ∧
    sampleImage.Entry.Debut = sampleImage.Entry.Debut ∧
    sampleImage.Entry.NbHeads = sampleImage.Entry.NbHeads ∧
    sampleImage.Entry.DataSize = sampleImage.Entry.DataSize ∧
    sampleImage.Entry.Unused = sampleImage.Entry.Unused ∧
    sampleImage.Tracks = sampleImage.Tracks :=
  ⟨sampleImage_CheckDsk, CheckDsk_frame sampleImage sampleImage _ sampleImage_CheckDsk⟩

/-- C19: whenever `CheckDsk` returns an error, the error is
`ErrorUnsupportedMultiHeadDsk` or `ErrorBadSectorNumber`, no warning was
printed and the image after the call is the image before it; a track count
above 42 is therefore left as it is. -/
theorem CheckDsk_error_atomic (d d1 : DSK) (ws : List Warning) (e : GoError)
    (h : d.CheckDsk = some (d1, ws, some e)) :
    d1 = d ∧ d1.Entry.NbTracks = d.Entry.NbTracks ∧ ws = [] ∧
    (e = GoError.ErrorUnsupportedMultiHeadDsk ∨ e = GoError.ErrorBadSectorNumber) := by
  rcases DSK.CheckDsk_cases d d1 ws (some e) h with ⟨he, hd, hw, _⟩ | ⟨he, hd, hw, _⟩ | ⟨he, _⟩
  · cases he
    subst hd
    exact ⟨rfl, rfl, hw, Or.inl rfl⟩
  · cases he
    subst hd
    exact ⟨rfl, rfl, hw, Or.inr rfl⟩
  · cases he

theorem rejectedImage_CheckDsk :
    rejectedImage.CheckDsk = some (rejectedImage, [], some GoError.ErrorBadSectorNumber) := by
  decide

theorem CheckDsk_error_atomic_witness :
    rejectedImage.CheckDsk = some (rejectedImage, [], some GoError.ErrorBadSectorNumber) ∧
    rejectedImage.Entry.NbTracks = 50 ∧
    rejectedImage = rejectedImage ∧
    rejectedImage.Entry.NbTracks = rejectedImage.Entry.NbTracks ∧ ([] : List Warning) = [] ∧
    (GoError.ErrorBadSectorNumber = GoError.ErrorUnsupportedMultiHeadDsk ∨
      GoError.ErrorBadSectorNumber = GoError.ErrorBadSectorNumber) :=
  ⟨rejectedImage_CheckDsk, rfl,
   CheckDsk_error_atomic rejectedImage rejectedImage [] _ rejectedImage_CheckDsk⟩

/-! ## The track-count invariant -/

theorem formattedDsk_GetMinSect (nbSect nbTrack : Nat) (h1 : 1 ≤ nbSect) (h2 : nbSect ≤ 29)
    (h3 : 1 ≤ nbTrack) : (formattedDsk nbSect nbTrack).GetMinSect = some 0xC1 := by
  obtain ⟨m, hm, _, hall, hex⟩ :=
    DSK.minSectLoop_spec (formattedTrack 0 0xC1 nbSect) nbSect 0 0xFF
      (by
        show 0 + nbSect ≤ ((List.range 29).map _).length
        rw [List.length_map, List.length_range]
        omega)
  have hR : ∀ j, j < nbSect → (formattedSect 0 0xC1 j).R = 0xC1 + j := by
    intro j hj
    show (j + 0xC1) % 256 = 0xC1 + j
    omega
  have hm0 : m ≤ 0xC1 := by
    have := hall 0 _ (Nat.le_refl _) (by omega)
      (formattedTrack_Sect_getElem? 0 0xC1 nbSect 0 (by omega) h2)
    rw [hR 0 (by omega)] at this
    exact this
  have hmeq : m = 0xC1 := by
    rcases hex with h0 | ⟨j, x, _, hj, hx, hmx⟩
    · omega
    · rw [formattedTrack_Sect_getElem? 0 0xC1 nbSect j (by omega) h2] at hx
      cases hx
      rw [hR j (by omega)] at hmx
      omega
  simp only [DSK.GetMinSect, formattedDsk_Tracks_getElem? nbSect nbTrack 0 (by omega)]
  show DSK.minSectLoop (formattedTrack 0 0xC1 nbSect) nbSect 0 0xFF = some 0xC1
  rw [hm, hmeq]

/-- With a single head, an accepted minimum sector id and indices in bounds,
`CheckDsk` returns nil and the image with its track count clamped. -/
theorem DSK.CheckDsk_of_accepted (d : DSK) (m : Nat) (h1 : d.Entry.NbHeads = 1)
    (hget : d.GetMinSect = some m) (hok : m = 0x01 ∨ m = 0x41 ∨ m = 0xC1)
    (hsect : ∀ t ∈ d.Tracks, t.NbSect ≤ t.Sect.length)
    (hlen : min d.Entry.NbTracks 42 ≤ d.Tracks.length) :
    ∃ ws, d.CheckDsk = some (d.clampTracks, ws, none) := by
  have hcond : ¬ (m ≠ 0x41 ∧ m ≠ 0xc1 ∧ m ≠ 0x01) := by omega
  obtain ⟨ws, hws⟩ := DSK.checkTracks_isSome d.clampTracks m
    (by rw [DSK.clampTracks_Tracks]; exact hsect) d.clampTracks.Entry.NbTracks 0 []
    (by rw [DSK.clampTracks_Tracks, DSK.clampTracks_NbTracks]; omega)
  refine ⟨ws, ?_⟩
  unfold DSK.CheckDsk
  rw [if_pos h1, hget]
  simp only []
  rw [if_neg hcond]
  change (match DSK.checkTracks d.clampTracks m d.clampTracks.Entry.NbTracks 0 [] with
    | none => none
    | some ws => some (d.clampTracks, ws, none)) = _
  rw [hws]

theorem formattedDsk_Tracks_length (nbSect nbTrack : Nat) :
    (formattedDsk nbSect nbTrack).Tracks.length = nbTrack := by
  show ((List.range nbTrack).map _).length = nbTrack
  rw [List.length_map, List.length_range]

theorem formattedDsk_CheckDsk (nbSect nbTrack : Nat) (h1 : 1 ≤ nbSect) (h2 : nbSect ≤ 29)
    (h3 : 1 ≤ nbTrack) :
    ∃ ws, (formattedDsk nbSect nbTrack).CheckDsk
      = some ((formattedDsk nbSect nbTrack).clampTracks, ws, none) := by
  apply DSK.CheckDsk_of_accepted _ 0xC1 rfl (formattedDsk_GetMinSect nbSect nbTrack h1 h2 h3)
    (Or.inr (Or.inr rfl))
  · intro t ht
    obtain ⟨i, _, hi⟩ := List.mem_map.mp ht
    rw [← hi]
    show nbSect ≤ ((List.range 29).map _).length
    rw [List.length_map, List.length_range]
    exact h2
  · rw [formattedDsk_Tracks_length]
    exact Nat.min_le_left _ _

/-- C15, as stated, fails at `FormatDsk(9, 43)`: the image has 43 tracks and
track count 43; `CheckDsk` returns nil on it and leaves 43 tracks with the
track count set to 42. -/
theorem CheckDsk_breaks_track_count :
    FormatDsk 9 43 = some (formattedDsk 9 43) ∧
    (formattedDsk 9 43).Tracks.length = (formattedDsk 9 43).Entry.NbTracks ∧
    ∃ d1 ws, (formattedDsk 9 43).CheckDsk = some (d1, ws, none) ∧
      d1.Tracks.length = 43 ∧ d1.Entry.NbTracks = 42 := by
  obtain ⟨ws, hws⟩ := formattedDsk_CheckDsk 9 43 (by decide) (by decide) (by decide)
  refine ⟨FormatDsk_eq 9 43 (by decide), formattedDsk_Tracks_length 9 43, _, ws, hws, ?_, ?_⟩
  · rw [DSK.clampTracks_Tracks, formattedDsk_Tracks_length]
  · rw [DSK.clampTracks_NbTracks]
    rfl

theorem NewDsk_nil_inv (lenient : Bool) (file : Except GoError (List Nat)) (d : DSK)
    (h : NewDsk lenient file = some (d, none)) : d.Tracks.length = d.Entry.NbTracks := by
  cases file with
  | error e =>
    simp only [NewDsk] at h
    cases h
  | ok f =>
    by_cases hlen : 256 ≤ f.length
    · by_cases hs : signatureAccepted f
      · rw [NewDsk_of_accepted lenient f hlen hs] at h
        cases h
        exact List.length_replicate _ _
      · rw [NewDsk_of_rejected lenient f hlen hs] at h
        cases h
    · obtain ⟨e, r, he⟩ := binaryReadEnt_of_lt f (by omega)
      simp only [NewDsk, he] at h
      cases h

/-- C15, as the code has it: `len(Tracks) = Entry.NbTracks` holds for every
image `FormatDsk` returns and every image `NewDsk` returns with a nil error,
and `FormatTrack` preserves it; `CheckDsk` never changes `len(Tracks)`, keeps
the invariant when the track count is at most 42 or when it returns an
error, and when it returns nil on a track count above 42 it leaves
`Entry.NbTracks = 42 < len(Tracks)`. -/
theorem track_count_invariant :
    (∀ (nbSect nbTrack : Nat) (d : DSK),
      FormatDsk nbSect nbTrack = some d → d.Tracks.length = d.Entry.NbTracks) ∧
    (∀ (lenient : Bool) (file : Except GoError (List Nat)) (d : DSK),
      NewDsk lenient file = some (d, none) → d.Tracks.length = d.Entry.NbTracks) ∧
    (∀ (d d1 : DSK) (track minSect nbSect : Nat),
      d.Tracks.length = d.Entry.NbTracks → d.FormatTrack track minSect nbSect = some d1 →
      d1.Tracks.length = d1.Entry.NbTracks) ∧
    (∀ (d d1 : DSK) (ws : List Warning) (err : Option GoError),
      d.Tracks.length = d.Entry.NbTracks → d.CheckDsk = some (d1, ws, err) →
      d1.Tracks.length = d.Tracks.length ∧
      (d.Entry.NbTracks ≤ 42 ∨ err ≠ none → d1.Tracks.length = d1.Entry.NbTracks) ∧
      (42 < d.Entry.NbTracks → err = none →
        d1.Entry.NbTracks = 42 ∧ d1.Entry.NbTracks < d1.Tracks.length)) := by
  refine ⟨?_, NewDsk_nil_inv, ?_, ?_⟩
  · intro nbSect nbTrack d h
    unfold FormatDsk at h
    simp only [] at h
    obtain ⟨he, hl⟩ := FormatDsk.formatTracks_frame nbSect nbTrack 0 _ d h
    rw [he, hl]
    exact List.length_replicate _ _
  · intro d d1 track minSect nbSect hinv h
    obtain ⟨he, hl⟩ := DSK.FormatTrack_frame d d1 track minSect nbSect h
    rw [he, hl]
    exact hinv
  · intro d d1 ws err hinv h
    rcases DSK.CheckDsk_cases d d1 ws err h with ⟨he, hd, _⟩ | ⟨he, hd, _⟩ | ⟨he, hd, _⟩
    · subst hd
      subst he
      refine ⟨rfl, fun _ => hinv, ?_⟩
      intro _ hc
      cases hc
    · subst hd
      subst he
      refine ⟨rfl, fun _ => hinv, ?_⟩
      intro _ hc
      cases hc
    · subst hd
      subst he
      have hT := DSK.clampTracks_Tracks d
      have hN := DSK.clampTracks_NbTracks d
      refine ⟨by rw [hT], ?_, ?_⟩
      · intro hc
        rcases hc with hle | hne
        · rw [hT, hN, hinv]
          omega
        · exact absurd rfl hne
      · intro hgt _
        rw [hT, hN, hinv]
        omega

theorem track_count_invariant_witness :
    FormatDsk 9 40 = some (formattedDsk 9 40) ∧
    (formattedDsk 9 40).Tracks.length = (formattedDsk 9 40).Entry.NbTracks ∧
    sampleImage.Tracks.length = sampleImage.Entry.NbTracks ∧
    sampleImage.Tracks.length = sampleImage.Tracks.length ∧
    (sampleImage.Entry.NbTracks ≤ 42 ∨ (none : Option GoError) ≠ none →
      sampleImage.Tracks.length = sampleImage.Entry.NbTracks) ∧
    (42 < sampleImage.Entry.NbTracks → (none : Option GoError) = none →
      sampleImage.Entry.NbTracks = 42 ∧
      sampleImage.Entry.NbTracks < sampleImage.Tracks.length) :=
  ⟨FormatDsk_eq 9 40 (by decide),
   track_count_invariant.1 9 40 _ (FormatDsk_eq 9 40 (by decide)), rfl,
   track_count_invariant.2.2.2 sampleImage sampleImage _ none rfl sampleImage_CheckDsk⟩

/-! ## The track `FormatTrack` builds -/

/-- C17: for `track < len(d.Tracks)` and `nbSect ≤ 29`, `FormatTrack` returns
and `d.Tracks[track]` then has the signature `Track-Info\r\n` padded with 4
zero bytes, `Track = track`, `Head = 0`, `SectSize = 2`, `NbSect = nbSect`,
`Gap3 = 0x4E`, `OctRemp = 0xE5` and 29 sector slots; every slot `s < nbSect`
has `C = track`, `H = 0`, `N = 2`, `SizeByte = 512` and 512 data bytes all
equal to `0xE5`; every slot from `nbSect` on is zero-valued with no data. -/
theorem FormatTrack_spec (d : DSK) (track minSect nbSect : Nat)
    (ht : track < d.Tracks.length) (hn : nbSect ≤ 29) :
    ∃ d1 tr, d.FormatTrack track minSect nbSect = some d1 ∧ d1.Tracks[track]? = some tr ∧
      tr.ID = sigTrackInfo ++ List.replicate 4 0 ∧ tr.ID.length = 16 ∧
      tr.Track = track ∧ tr.Head = 0 ∧ tr.SectSize = 2 ∧ tr.NbSect = nbSect ∧
      tr.Gap3 = 0x4E ∧ tr.OctRemp = 0xE5 ∧ tr.Sect.length = 29 ∧
      (∀ s, s < nbSect → ∃ x, tr.Sect[s]? = some x ∧ x.C = track ∧ x.H = 0 ∧ x.N = 2 ∧
        x.SizeByte = 512 ∧ x.Data.length = 512 ∧ x.Data = List.replicate 512 0xE5) ∧
      (∀ s, nbSect ≤ s → s < 29 → tr.Sect[s]? = some CPCEMUSect.zero) ∧
      CPCEMUSect.zero.Data = [] := by
  refine ⟨_, formattedTrack track minSect nbSect, DSK.FormatTrack_eq d track minSect nbSect hn ht,
    ?_, rfl, rfl, rfl, rfl, rfl, rfl, rfl, rfl, ?_, ?_, ?_, rfl⟩
  · show (d.Tracks.set track (formattedTrack track minSect nbSect))[track]? = _
    rw [List.getElem?_set, if_pos rfl, if_pos ht]
  · show ((List.range 29).map _).length = 29
    rw [List.length_map, List.length_range]
  · intro s hs
    refine ⟨formattedSect track minSect s,
      formattedTrack_Sect_getElem? track minSect nbSect s hs hn, rfl, rfl, rfl, rfl, ?_, rfl⟩
    show (List.replicate 0x200 0xe5).length = 512
    rw [List.length_replicate]
  · intro s hs1 hs2
    show ((List.range 29).map _)[s]? = _
    rw [getElem?_range_map, if_pos hs2, if_neg (by omega)]

theorem FormatTrack_spec_witness :
    0 < sampleImage.Tracks.length ∧ 9 ≤ 29 ∧
    ∃ d1 tr, sampleImage.FormatTrack 0 0xC1 9 = some d1 ∧ d1.Tracks[0]? = some tr ∧
      tr.ID = sigTrackInfo ++ List.replicate 4 0 ∧ tr.ID.length = 16 ∧
      tr.Track = 0 ∧ tr.Head = 0 ∧ tr.SectSize = 2 ∧ tr.NbSect = 9 ∧
      tr.Gap3 = 0x4E ∧ tr.OctRemp = 0xE5 ∧ tr.Sect.length = 29 ∧
      (∀ s, s < 9 → ∃ x, tr.Sect[s]? = some x ∧ x.C = 0 ∧ x.H = 0 ∧ x.N = 2 ∧
        x.SizeByte = 512 ∧ x.Data.length = 512 ∧ x.Data = List.replicate 512 0xE5) ∧
      (∀ s, 9 ≤ s → s < 29 → tr.Sect[s]? = some CPCEMUSect.zero) ∧
      CPCEMUSect.zero.Data = [] :=
  ⟨by decide, by decide, FormatTrack_spec sampleImage 0 0xC1 9 (by decide) (by decide)⟩

/-! ## Exact value of `GetPosData` -/

theorem shift_overflow (n : Nat) (h : 9 ≤ n) : (128 * 2 ^ n) % 65536 = 0 := by
  obtain ⟨k, hk⟩ : ∃ k, n = 9 + k := ⟨n - 9, by omega⟩
  subst hk
  rw [Nat.pow_add, ← Nat.mul_assoc]
  show (65536 * 2 ^ k) % 65536 = 0
  exact Nat.mul_mod_right _ _

/-- C18: for `track` and `sect` in bounds, `GetPosData` returns 0 when
`SectPhysique` is set and the slot's `R` differs from `sect`; otherwise 0
when the slot's `SizeByte` is 0 and `(128 * 2^N) mod 65536` when it is not,
which is 0 for every `N ≥ 9`; with `SectPhysique` unset the result is the
same for any two slots that agree on `SizeByte` and `N`, whatever their `R`. -/
theorem GetPosData_exact (d : DSK) (track sect : Nat) (SectPhysique : Bool)
    (tr : CPCEMUTrack) (x : CPCEMUSect) (htr : d.Tracks[track]? = some tr)
    (hx : tr.Sect[sect]? = some x) :
    d.GetPosData track sect SectPhysique =
      some (if SectPhysique = true ∧ x.R ≠ sect then 0
            else if x.SizeByte = 0 then 0 else (128 * 2 ^ x.N) % 65536) ∧
    (9 ≤ x.N → (128 * 2 ^ x.N) % 65536 = 0) ∧
    (∀ (d2 : DSK) (tr2 : CPCEMUTrack) (x2 : CPCEMUSect),
      d2.Tracks[track]? = some tr2 → tr2.Sect[sect]? = some x2 →
      x2.SizeByte = x.SizeByte → x2.N = x.N →
      d2.GetPosData track sect false = d.GetPosData track sect false) := by
  have hval : ∀ (d0 : DSK) (tr0 : CPCEMUTrack) (x0 : CPCEMUSect) (p : Bool),
      d0.Tracks[track]? = some tr0 → tr0.Sect[sect]? = some x0 →
      d0.GetPosData track sect p =
        some (if p = true ∧ x0.R ≠ sect then 0
              else if x0.SizeByte = 0 then 0 else (128 * 2 ^ x0.N) % 65536) := by
    intro d0 tr0 x0 p h1 h2
    simp only [DSK.GetPosData, h1, h2]
    cases p
    · by_cases hz : x0.SizeByte = 0
      · simp [hz]
      · simp [hz]
    · by_cases hr : x0.R = sect
      · by_cases hz : x0.SizeByte = 0
        · simp [hr, hz]
        · simp [hr, hz]
      · simp [hr]
  refine ⟨hval d tr x SectPhysique htr hx, shift_overflow x.N, ?_⟩
  intro d2 tr2 x2 h1 h2 hs hN
  rw [hval d2 tr2 x2 false h1 h2, hval d tr x false htr hx, hs, hN]
  simp

theorem GetPosData_exact_witness :
    (formattedDsk 9 40).Tracks[0]? = some (formattedTrack 0 0xC1 9) ∧
    (formattedTrack 0 0xC1 9).Sect[0]? = some (formattedSect 0 0xC1 0) ∧
    (formattedDsk 9 40).GetPosData 0 0 false =
      some (if false = true ∧ (formattedSect 0 0xC1 0).R ≠ 0 then 0
            else if (formattedSect 0 0xC1 0).SizeByte = 0 then 0
            else (128 * 2 ^ (formattedSect 0 0xC1 0).N) % 65536) ∧
    (9 ≤ (formattedSect 0 0xC1 0).N → (128 * 2 ^ (formattedSect 0 0xC1 0).N) % 65536 = 0) ∧
    (∀ (d2 : DSK) (tr2 : CPCEMUTrack) (x2 : CPCEMUSect),
      d2.Tracks[0]? = some tr2 → tr2.Sect[0]? = some x2 →
      x2.SizeByte = (formattedSect 0 0xC1 0).SizeByte → x2.N = (formattedSect 0 0xC1 0).N →
      d2.GetPosData 0 0 false = (formattedDsk 9 40).GetPosData 0 0 false) :=
  ⟨formattedDsk_Tracks_getElem? 9 40 0 (by decide),
   formattedTrack_Sect_getElem? 0 0xC1 9 0 (by decide) (by decide),
   GetPosData_exact (formattedDsk 9 40) 0 0 false (formattedTrack 0 0xC1 9)
     (formattedSect 0 0xC1 0) (formattedDsk_Tracks_getElem? 9 40 0 (by decide))
     (formattedTrack_Sect_getElem? 0 0xC1 9 0 (by decide) (by decide))⟩

/-! ## Bounds of blank synthesis -/

theorem DSK.formatSectors_none (track minSect : Nat) (fuel : Nat) :
    ∀ (s ss : Nat) (t : CPCEMUTrack), s ≤ t.Sect.length → t.Sect.length < s + fuel →
      DSK.formatSectors track minSect fuel s ss t = none := by
  induction fuel with
  | zero =>
    intro s ss t h1 h2
    omega
  | succ n ih =>
    intro s ss t h1 h2
    by_cases hs : s < t.Sect.length
    · simp only [DSK.formatSectors, List.getElem?_eq_getElem hs]
      apply ih
      · show s + 1 ≤ (t.Sect.set s _).length
        rw [List.length_set]
        omega
      · show (t.Sect.set s _).length < s + 1 + n
        rw [List.length_set]
        omega
    · simp only [DSK.formatSectors, List.getElem?_eq_none (Nat.le_of_not_lt hs)]

theorem DSK.FormatTrack_none (d : DSK) (track minSect nbSect : Nat) (hn : 29 < nbSect) :
    d.FormatTrack track minSect nbSect = none := by
  unfold DSK.FormatTrack
  simp only []
  rw [DSK.formatSectors_none track minSect nbSect 0 0 _ (Nat.zero_le _)
    (by
      show (List.replicate 29 CPCEMUSect.zero).length < 0 + nbSect
      rw [List.length_replicate]
      omega)]

theorem formattedTrack_Sect_length (track minSect nbSect : Nat) :
    (formattedTrack track minSect nbSect).Sect.length = 29 := by
  show ((List.range 29).map _).length = 29
  rw [List.length_map, List.length_range]

/-- C20: for `nbSect ≤ 29` and any `nbTrack`, `FormatDsk(nbSect, nbTrack)`
returns an image (no index leaves its bounds) of `nbTrack` tracks of 29 slots
each; for `nbSect > 29` and `nbTrack ≥ 1` it returns no image: formatting the
first track fills the 29 slots in bounds and then indexes slot 29, which the
sector array does not have. -/
theorem FormatDsk_bounds (nbSect nbTrack : Nat) :
    (nbSect ≤ 29 →
      ∃ d, FormatDsk nbSect nbTrack = some d ∧ d.Tracks.length = nbTrack ∧
        ∀ t ∈ d.Tracks, t.Sect.length = 29) ∧
    (29 < nbSect → 1 ≤ nbTrack →
      FormatDsk nbSect nbTrack = none ∧
      (∀ t : CPCEMUTrack, t.Sect = CPCEMUTrack.zero.Sect →
        ∃ t1, DSK.formatSectors 0 0xC1 29 0 0 t = some t1 ∧
          t1.Sect.length = 29 ∧ t1.Sect[29]? = none ∧
          DSK.formatSectors 0 0xC1 (nbSect - 29) 29 29 t1 = none)) := by
  constructor
  · intro hn
    refine ⟨formattedDsk nbSect nbTrack, FormatDsk_eq nbSect nbTrack hn,
      formattedDsk_Tracks_length nbSect nbTrack, ?_⟩
    intro t ht
    obtain ⟨i, _, hi⟩ := List.mem_map.mp ht
    rw [← hi]
    exact formattedTrack_Sect_length i 0xC1 nbSect
  · intro hn ht
    obtain ⟨k, hk⟩ : ∃ k, nbTrack = k + 1 := ⟨nbTrack - 1, by omega⟩
    subst hk
    refine ⟨?_, ?_⟩
    · unfold FormatDsk
      simp only [FormatDsk.formatTracks, DSK.FormatTrack_none _ 0 0xC1 nbSect hn]
    · intro t htz
      have h29 := DSK.formatSectors_eq 0 0xC1 29 0 t (by omega)
        (htz.trans (replicate_eq_range_map (formattedSect 0 0xC1) CPCEMUSect.zero 29))
      refine ⟨_, h29, ?_, ?_, ?_⟩
      · show ((List.range 29).map _).length = 29
        rw [List.length_map, List.length_range]
      · show ((List.range 29).map _)[29]? = none
        rw [getElem?_range_map, if_neg (by omega)]
      · apply DSK.formatSectors_none
        · show 29 ≤ ((List.range 29).map _).length
          rw [List.length_map, List.length_range]
        · show ((List.range 29).map _).length < 29 + (nbSect - 29)
          rw [List.length_map, List.length_range]
          omega

theorem FormatDsk_bounds_witness :
    (9 ≤ 29 →
      ∃ d, FormatDsk 9 40 = some d ∧ d.Tracks.length = 40 ∧
        ∀ t ∈ d.Tracks, t.Sect.length = 29) ∧
    (29 < 9 → 1 ≤ 40 →
      FormatDsk 9 40 = none ∧
      (∀ t : CPCEMUTrack, t.Sect = CPCEMUTrack.zero.Sect →
        ∃ t1, DSK.formatSectors 0 0xC1 29 0 0 t = some t1 ∧
          t1.Sect.length = 29 ∧ t1.Sect[29]? = none ∧
          DSK.formatSectors 0 0xC1 (9 - 29) 29 29 t1 = none)) ∧
    FormatDsk 30 1 = none :=
  ⟨(FormatDsk_bounds 9 40).1, (FormatDsk_bounds 9 40).2,
   ((FormatDsk_bounds 30 1).2 (by decide) (by decide)).1⟩

end Dsk
